import Mathlib

/-!
Verification of the guardian-redact python worker scripts.

Shallow embedding: the pure parts of `apply_audio_redactions.py`,
`process_audio.py`, `export_pdf.py`, `process_page.py` and `ollama_manager.py`
are translated into executable Lean definitions.  External collaborators
(pydub, ffmpeg, PyMuPDF, the Ollama HTTP service) are modelled as explicit
parameters or abstract data.  Python exceptions that are caught by an outer
handler are modelled with `Option`: `none` is the exception path.
-/

namespace GuardianRedact

/-! ## Python primitive semantics -/

/-- Python `int()` applied to a float value truncates toward zero. -/
def pyTrunc (q : ℚ) : ℤ := if 0 ≤ q then ⌊q⌋ else ⌈q⌉

/-- `int(t * 1000)`: seconds to whole milliseconds, truncating toward zero.
Written over the numerator and denominator so that it evaluates by kernel
reduction; `pyMs_eq` below proves it equal to `pyTrunc (q * 1000)`. -/
def pyMs (q : ℚ) : ℤ := pyTrunc (mkRat (q.num * 1000) q.den)

/-- Python `s.split(sep)` for a one-character separator: all fields kept,
empty fields included. -/
def splitOnChar (sep : Char) : List Char → List (List Char)
  | [] => [[]]
  | c :: cs =>
    match splitOnChar sep cs with
    | [] => [[c]]
    | h :: t => if c = sep then [] :: h :: t else (c :: h) :: t

/-- Python `s.strip()`: remove leading and trailing whitespace. -/
def pyStrip (cs : List Char) : List Char :=
  ((cs.dropWhile Char.isWhitespace).reverse.dropWhile Char.isWhitespace).reverse

/-- Digit-string value; `none` unless the character list is a non-empty
run of decimal digits. -/
def parseDigits (cs : List Char) : Option ℕ :=
  if cs ≠ [] ∧ cs.all Char.isDigit then
    some (cs.foldl (fun a c => a * 10 + (c.toNat - ('0').toNat)) 0)
  else
    none

/-- Python `int(s)` on a string: optional surrounding whitespace, optional
sign, decimal digits; `none` models `ValueError`.  (Underscore separators and
non-decimal bases are not used by any input this development evaluates.) -/
def pyParseInt (s : String) : Option ℤ :=
  match pyStrip s.toList with
  | '+' :: rest => (parseDigits rest).map Int.ofNat
  | '-' :: rest => (parseDigits rest).map (fun n => -(n : ℤ))
  | cs => (parseDigits cs).map Int.ofNat

/-- The rational `n + f / 10^l` (integer part `n`, `l` fractional digits of
value `f`), built with `mkRat` so that it evaluates by kernel reduction;
`decimalVal_eq` below proves it equal to the textbook form. -/
def decimalVal (n f l : ℕ) : ℚ := mkRat ((n * 10 ^ l + f : ℕ) : ℤ) (10 ^ l)

/-- Unsigned decimal fraction `d⁺ | d⁺.d* | d*.d⁺` as a rational. -/
def parseDecimal (cs : List Char) : Option ℚ :=
  match splitOnChar '.' cs with
  | [a] => (parseDigits a).map (fun n => (n : ℚ))
  | [a, b] =>
    if a ≠ [] ∧ b = [] then (parseDigits a).map (fun n => (n : ℚ))
    else if a = [] ∧ b ≠ [] then
      (parseDigits b).map (fun f => decimalVal 0 f b.length)
    else
      match parseDigits a, parseDigits b with
      | some n, some f => some (decimalVal n f b.length)
      | _, _ => none
  | _ => none

/-- Python `float(s)` on a string: optional surrounding whitespace, optional
sign, decimal fraction; `none` models `ValueError`.  (Exponent, `inf` and
`nan` forms are not modelled; every such input is rejected here, and every
place the worker uses the result also maps those forms to the same outcome
as a rejection.) -/
def pyParseFloat (s : String) : Option ℚ :=
  match pyStrip s.toList with
  | '+' :: rest => parseDecimal rest
  | '-' :: rest => (parseDecimal rest).map (fun q => -q)
  | cs => parseDecimal cs

/-- `s.startswith(pat)` on character lists. -/
def startsWithSeq (pat s : List Char) : Bool := decide (s.take pat.length = pat)

/-- `s.endswith(pat)` on character lists. -/
def endsWithSeq (pat s : List Char) : Bool := startsWithSeq pat.reverse s.reverse

/-- Python `pat in s` substring containment on character lists. -/
def containsSeq (pat s : List Char) : Bool :=
  (List.range (s.length + 1)).any (fun i => startsWithSeq pat (s.drop i))

/-- Fuel-indexed body of Python `s.replace(pat, repl)`: replace every
non-overlapping occurrence, scanning left to right.  `fuel` bounds the scan;
`s.length` is always enough. -/
def pyReplaceAux (pat repl : List Char) : ℕ → List Char → List Char
  | 0, s => s
  | _, [] => []
  | fuel + 1, c :: cs =>
    if pat ≠ [] ∧ startsWithSeq pat (c :: cs) then
      repl ++ pyReplaceAux pat repl fuel ((c :: cs).drop pat.length)
    else
      c :: pyReplaceAux pat repl fuel cs

/-- Python `s.replace(pat, repl)`. -/
def pyReplace (pat repl s : List Char) : List Char :=
  pyReplaceAux pat repl s.length s

/-- Python `s.find(ch)`: index of the first occurrence. -/
def pyFind (ch : Char) (s : List Char) : Option ℕ := s.findIdx? (fun c => c = ch)

/-- Python `s.rfind(ch)`: index of the last occurrence. -/
def pyRFind (ch : Char) (s : List Char) : Option ℕ :=
  match s.reverse.findIdx? (fun c => c = ch) with
  | some i => some (s.length - 1 - i)
  | none => none

/-! ## `process_audio.convert_timestamp_to_seconds` -/

/-- The runtime type of the `start_time`/`end_time` JSON field handed to
`convert_timestamp_to_seconds` (`process_audio.py` lines 84-125):
a number, a string, or anything else. -/
inductive TimeVal where
  | num (q : ℚ)
  | str (s : String)
  | other
deriving Repr, DecidableEq

/-- `hours * 3600 + minutes * 60 + seconds`, built with `mkRat` so that it
evaluates by kernel reduction; `clockSum_eq` below proves it equal to the
textbook form. -/
def clockSum (hours minutes : ℤ) (seconds : ℚ) : ℚ :=
  mkRat ((hours * 3600 + minutes * 60) * (seconds.den : ℤ) + seconds.num) seconds.den

/-- `convert_timestamp_to_seconds` (`process_audio.py` lines 84-125).
Numeric input is bounds-checked to `[0, 10000]`; a string containing a colon
is split into exactly three `HH:MM:SS.mmm` fields, parsed and range-checked
(`0 ≤ H ≤ 23`, `0 ≤ M ≤ 59`, `0 ≤ S ≤ 59.999`); any other string is parsed
as a bare number with the `[0, 10000]` bounds check.  Every failure path
returns `0.0` after logging a warning; the Lean function is total, mirroring
that the Python function never lets an exception escape. -/
def convertTimestampToSeconds (v : TimeVal) : ℚ :=
  match v with
  | .num q => if 0 ≤ q ∧ q ≤ 10000 then q else 0
  | .str s =>
    if s.toList.contains ':' then
      match (splitOnChar ':' s.toList).map List.asString with
      | [p0, p1, p2] =>
        match pyParseInt p0, pyParseInt p1, pyParseFloat p2 with
        | some hours, some minutes, some seconds =>
          if 0 ≤ hours ∧ hours ≤ 23 ∧ 0 ≤ minutes ∧ minutes ≤ 59 ∧
              0 ≤ seconds ∧ seconds ≤ mkRat 59999 1000 then
            clockSum hours minutes seconds
          else 0
        | _, _, _ => 0
      | _ => 0
    else
      match pyParseFloat s with
      | some r => if 0 ≤ r ∧ r ≤ 10000 then r else 0
      | none => 0
  | .other => 0

/-! ## `apply_audio_redactions.apply_redactions` -/

/-- One audio redaction directive as read from the redactions JSON file.
A `none` field models a key that is missing from the JSON object
(accessing it raises `KeyError`).  Unknown extra fields carry no behaviour
and are not modelled. -/
structure AudioRedaction where
  start_time : Option ℚ
  end_time : Option ℚ
  action : Option String
deriving Repr, DecidableEq

/-- Audio is modelled as one abstract sample per millisecond, matching
pydub's millisecond slicing granularity. -/
abbrev Audio := List ℤ

/-- `AudioSegment.silent(duration=n)`. -/
def silentSegment (n : ℕ) : Audio := List.replicate n 0

/-- `Sine(freq).to_audio_segment(duration=n)` (with its later attenuation):
`n` milliseconds of tone, abstracted as samples tagged by the frequency. -/
def beepSegment (freq : ℤ) (n : ℕ) : Audio := List.replicate n freq

/-- `audio[:s] + repl + audio[e:]`: pydub slice splice. -/
def splice (audio : Audio) (s e : ℕ) (repl : Audio) : Audio :=
  audio.take s ++ repl ++ audio.drop e

/-- One iteration of the directive loop of `apply_redactions`
(`apply_audio_redactions.py` lines 25-89).  `shift` models the external
ffmpeg pitch-shift pipeline applied to the extracted segment; `shift seg =
none` means that pipeline raised, taking the 400 Hz beep fallback.  The
result is `none` when a required key is missing (`KeyError` escaping the
loop into the outer handler). -/
def applyOne (shift : Audio → Option Audio) (audio : Audio) (r : AudioRedaction) :
    Option Audio := do
  let st ← r.start_time
  let et ← r.end_time
  let start_ms : ℤ := pyMs st
  let end_ms : ℤ := pyMs et
  let s : ℤ := max 0 start_ms
  let e : ℤ := min (audio.length : ℤ) end_ms
  if s ≥ e then
    pure audio
  else do
    let act ← r.action
    let dur : ℕ := (e - s).toNat
    if act = "silence" then
      pure (splice audio s.toNat e.toNat (silentSegment dur))
    else if act = "beep" then
      pure (splice audio s.toNat e.toNat (beepSegment 800 dur))
    else if act = "anonymize" then
      match shift ((audio.drop s.toNat).take dur) with
      | some seg => pure (splice audio s.toNat e.toNat seg)
      | none => pure (splice audio s.toNat e.toNat (beepSegment 400 dur))
    else
      pure audio

/-- Sort key `lambda r: r['start_time']`; only used on directives whose
`start_time` is present. -/
def startKey (r : AudioRedaction) : ℚ := r.start_time.getD 0

/-- Descending start-time order between two directives. -/
def startGE (a b : AudioRedaction) : Prop := startKey b ≤ startKey a

instance : DecidableRel startGE := fun _ _ => inferInstanceAs (Decidable (_ ≤ _))

instance : IsTotal AudioRedaction startGE :=
  ⟨fun a b => Or.symm (le_total (startKey a) (startKey b))⟩

instance : IsTrans AudioRedaction startGE := ⟨fun _ _ _ h1 h2 => le_trans h2 h1⟩

/-- `sorted(redactions, key=lambda r: r['start_time'], reverse=True)`.
Python `sorted` is stable, and a stable sort is uniquely determined by its
comparator and the input order; `List.insertionSort` is stable for the same
comparator, so it computes the same list. -/
def sortDesc (rs : List AudioRedaction) : List AudioRedaction :=
  rs.insertionSort startGE

/-- `apply_redactions` (`apply_audio_redactions.py` lines 11-98), with file
I/O and mp3 encoding factored out: sorts the directives in descending
`start_time` order and folds the loop body over them.  `none` models the
outer `except` branch (the CLI prints an error and exits 1 with no output
written); the sort itself evaluates the key on every directive, so a single
directive with no `start_time` already raises there. -/
def applyRedactions (shift : Audio → Option Audio) (audio : Audio)
    (rs : List AudioRedaction) : Option Audio :=
  if rs.all (fun r => r.start_time.isSome) then
    (sortDesc rs).foldlM (applyOne shift) audio
  else
    none

/-- Duration ledger, written from the spec's duration equation: walking the
directive list in processing order, record for each *applied* directive the
clamped interval length and the replacement segment length (milliseconds);
skipped directives record nothing.  The audio threaded through is the same
fold as `applyOne`. -/
def durationLedger (shift : Audio → Option Audio) (audio : Audio) :
    List AudioRedaction → Option (List (ℕ × ℕ))
  | [] => some []
  | r :: rs => do
    let a' ← applyOne shift audio r
    let rest ← durationLedger shift a' rs
    let st ← r.start_time
    let et ← r.end_time
    let s : ℤ := max 0 (pyMs st)
    let e : ℤ := min (audio.length : ℤ) (pyMs et)
    if s ≥ e then
      pure rest
    else do
      let act ← r.action
      let dur : ℕ := (e - s).toNat
      if act = "silence" ∨ act = "beep" then
        pure ((dur, dur) :: rest)
      else if act = "anonymize" then
        match shift ((audio.drop s.toNat).take dur) with
        | some seg => pure ((dur, seg.length) :: rest)
        | none => pure ((dur, dur) :: rest)
      else
        pure rest

/-! ## JSON values, serialization and `json.loads`

`json.loads`/`json.dumps` are the Python standard library; the repository
only calls them.  Modelled from the spec: a JSON value is null, a boolean, a
number (restricted to integers — every JSON number any claim evaluates is an
integer), a string, an array, or an object; `json.loads` parses the standard
grammar and rejects trailing data, trailing commas and missing separators;
serialization uses the compact separators the worker itself uses
(`process_audio.py` line 361, `separators=(',', ':')`), with strings
rendered verbatim (faithful for strings that need no escapes, which the
plainness hypotheses below guarantee). -/

inductive Json where
  | null
  | bool (b : Bool)
  | int (n : ℤ)
  | str (s : String)
  | arr (xs : List Json)
  | obj (fields : List (String × Json))

/-- Value of a run of decimal digit characters. -/
def digitsVal (cs : List Char) : ℕ :=
  cs.foldl (fun a c => a * 10 + (c.toNat - ('0').toNat)) 0

/-- Decimal digit characters of `n`, most significant first; the fuel makes
the recursion structural, `n + 1` is always enough. -/
def natToDigitsAux : ℕ → ℕ → List Char
  | 0, _ => []
  | fuel + 1, n =>
    if n < 10 then [Nat.digitChar n]
    else natToDigitsAux fuel (n / 10) ++ [Nat.digitChar (n % 10)]

/-- Decimal rendering of a natural number. -/
def natToDigits (n : ℕ) : List Char := natToDigitsAux (n + 1) n

/-- Decimal rendering of an integer. -/
def intToChars (n : ℤ) : List Char :=
  if n < 0 then '-' :: natToDigits n.natAbs else natToDigits n.toNat

mutual

/-- Compact JSON serialization of a value (see the section comment). -/
def serializeJson : Json → List Char
  | .null => ("null").toList
  | .bool true => ("true").toList
  | .bool false => ("false").toList
  | .int n => intToChars n
  | .str s => '"' :: s.toList ++ ['"']
  | .arr xs => '[' :: serializeArr xs ++ [']']
  | .obj fs => '\x7b' :: serializeObj fs ++ ['\x7d']

/-- Comma-separated serialization of array elements. -/
def serializeArr : List Json → List Char
  | [] => []
  | [x] => serializeJson x
  | x :: y :: xs => serializeJson x ++ ',' :: serializeArr (y :: xs)

/-- Comma-separated serialization of object members (`"key":value`). -/
def serializeObj : List (String × Json) → List Char
  | [] => []
  | [(k, v)] => '"' :: k.toList ++ '"' :: ':' :: serializeJson v
  | (k, v) :: f :: fs =>
    '"' :: k.toList ++ '"' :: ':' :: serializeJson v ++ ',' :: serializeObj (f :: fs)

end

/-- A character that JSON serializes verbatim inside a string literal:
printable ASCII other than the quote and the backslash. -/
def plainChar (c : Char) : Bool :=
  decide (c ≠ '"' ∧ c ≠ '\\' ∧ 32 ≤ c.toNat ∧ c.toNat ≤ 126)

mutual

/-- Every string (content and object keys) in the value is made of
`plainChar`s, so its serialization needs no escape sequences. -/
def jsonPlain : Json → Bool
  | .null => true
  | .bool _ => true
  | .int _ => true
  | .str s => s.toList.all plainChar
  | .arr xs => jsonArrPlain xs
  | .obj fs => jsonObjPlain fs

def jsonArrPlain : List Json → Bool
  | [] => true
  | x :: xs => jsonPlain x && jsonArrPlain xs

def jsonObjPlain : List (String × Json) → Bool
  | [] => true
  | (k, v) :: fs => k.toList.all plainChar && jsonPlain v && jsonObjPlain fs

end

/-- JSON insignificant whitespace. -/
def skipWs (cs : List Char) : List Char :=
  cs.dropWhile (fun c => c = ' ' ∨ c = '\t' ∨ c = '\n' ∨ c = '\r')

/-- Body of a JSON string literal after the opening quote: content up to the
closing quote plus the remaining input; handles the `\"` and `\\` escapes
(the only ones the serialized fragment uses). -/
def parseStringBody : List Char → Option (List Char × List Char)
  | [] => none
  | '"' :: rest => some ([], rest)
  | '\\' :: c :: rest =>
    if c = '"' ∨ c = '\\' then
      (parseStringBody rest).map (fun p => (c :: p.1, p.2))
    else
      none
  | c :: rest => (parseStringBody rest).map (fun p => (c :: p.1, p.2))

mutual

/-- JSON value parser (one `json.loads` step), fuel-indexed so that the
recursion is structural; `input.length + 1` fuel is always enough. -/
def parseJsonValue : ℕ → List Char → Option (Json × List Char)
  | 0, _ => none
  | fuel + 1, input =>
    match skipWs input with
    | [] => none
    | c :: rest =>
      if c = '"' then
        (parseStringBody rest).map (fun p => (.str p.1.asString, p.2))
      else if c = '[' then
        (parseJsonElems fuel rest).map (fun p => (.arr p.1, p.2))
      else if c = '\x7b' then
        (parseJsonMembers fuel rest).map (fun p => (.obj p.1, p.2))
      else if c = '-' then
        match rest.takeWhile Char.isDigit with
        | [] => none
        | ds => some (.int (-(digitsVal ds : ℤ)), rest.dropWhile Char.isDigit)
      else if c.isDigit then
        some (.int (digitsVal ((c :: rest).takeWhile Char.isDigit) : ℤ),
          (c :: rest).dropWhile Char.isDigit)
      else if startsWithSeq (("true").toList) (c :: rest) then
        some (.bool true, (c :: rest).drop 4)
      else if startsWithSeq (("false").toList) (c :: rest) then
        some (.bool false, (c :: rest).drop 5)
      else if startsWithSeq (("null").toList) (c :: rest) then
        some (.null, (c :: rest).drop 4)
      else
        none

/-- Array tail after `[`: either `]` or a non-empty element list. -/
def parseJsonElems : ℕ → List Char → Option (List Json × List Char)
  | 0, _ => none
  | fuel + 1, input =>
    match skipWs input with
    | [] => none
    | c :: rest =>
      if c = ']' then some ([], rest)
      else
        match parseJsonValue fuel (c :: rest) with
        | some (v, r) =>
          match skipWs r with
          | ',' :: r2 => (parseJsonElemsMore fuel r2).map (fun p => (v :: p.1, p.2))
          | ']' :: r2 => some ([v], r2)
          | _ => none
        | none => none

/-- Array elements after a comma: at least one element then `]`. -/
def parseJsonElemsMore : ℕ → List Char → Option (List Json × List Char)
  | 0, _ => none
  | fuel + 1, input =>
    match parseJsonValue fuel input with
    | some (v, r) =>
      match skipWs r with
      | ',' :: r2 => (parseJsonElemsMore fuel r2).map (fun p => (v :: p.1, p.2))
      | ']' :: r2 => some ([v], r2)
      | _ => none
    | none => none

/-- Object tail after `{`: either `}` or a non-empty member list. -/
def parseJsonMembers : ℕ → List Char → Option (List (String × Json) × List Char)
  | 0, _ => none
  | fuel + 1, input =>
    match skipWs input with
    | [] => none
    | c :: rest =>
      if c = '\x7d' then some ([], rest)
      else if c = '"' then parseJsonMemberList fuel rest
      else none

/-- Object members, entered right after the opening quote of a key. -/
def parseJsonMemberList : ℕ → List Char → Option (List (String × Json) × List Char)
  | 0, _ => none
  | fuel + 1, input =>
    match parseStringBody input with
    | some (k, r) =>
      match skipWs r with
      | ':' :: r2 =>
        match parseJsonValue fuel r2 with
        | some (v, r3) =>
          match skipWs r3 with
          | ',' :: r4 =>
            match skipWs r4 with
            | '"' :: r5 =>
              (parseJsonMemberList fuel r5).map (fun p => ((k.asString, v) :: p.1, p.2))
            | _ => none
          | '\x7d' :: r4 => some ([(k.asString, v)], r4)
          | _ => none
        | none => none
      | _ => none
    | none => none

end

/-- `json.loads`: parse one value and reject trailing non-whitespace. -/
def jsonParse (cs : List Char) : Option Json :=
  match parseJsonValue (cs.length + 1) cs with
  | some (v, rest) => if skipWs rest = [] then some v else none
  | none => none

/-! ## `process_page.parse_model_response` -/

/-- `parse_model_response` (`process_page.py` lines 144-179): strip
whitespace, strip a `BACKTICKS json` / bare `BACKTICKS` fence pair, cut the
text between the first `[` and the last `]`, apply the five literal
`str.replace` repairs in source order, and `json.loads` the result.  Any
failure (no brackets, parse error) is caught and yields the empty list. -/
def parseModelResponse (resp : List Char) : Json :=
  let cleaned0 := pyStrip resp
  let cleaned1 :=
    if startsWithSeq (("```json").toList) cleaned0 then cleaned0.drop 7 else cleaned0
  let cleaned2 :=
    if startsWithSeq (("```").toList) cleaned1 then cleaned1.drop 3 else cleaned1
  let cleaned :=
    if endsWithSeq (("```").toList) cleaned2 then cleaned2.take (cleaned2.length - 3)
    else cleaned2
  match pyFind '[' cleaned, pyRFind ']' cleaned with
  | some si, some ei =>
    let jt0 := (cleaned.drop si).take (ei + 1 - si)
    let jt1 := pyReplace ((",\n").toList ++ ['\x7d']) (("\n").toList ++ ['\x7d']) jt0
    let jt2 := pyReplace ((",\n]").toList) (("\n]").toList) jt1
    let jt3 := pyReplace ((",]").toList) (("]").toList) jt2
    let jt4 := pyReplace ([','] ++ ['\x7d']) (['\x7d']) jt3
    let jt := pyReplace (['\x7d'] ++ ("\n  ").toList ++ ['\x7b'])
      (['\x7d', ','] ++ ("\n  ").toList ++ ['\x7b']) jt4
    match jsonParse jt with
    | some v => v
    | none => .arr []
  | _, _ => .arr []

/-! ## `export_pdf` -/

/-- A `fitz.Rect` (two corner points). -/
structure PdfRect where
  x0 : ℚ
  y0 : ℚ
  x1 : ℚ
  y1 : ℚ
deriving DecidableEq

/-- The `coordinates` sub-object of a redaction directive. -/
structure Coordinates where
  page : ℤ
  x : ℚ
  y : ℚ
  width : ℚ
  height : ℚ
deriving DecidableEq

/-- One PDF page, holding the pending redaction annotations, the committed
(content-removing) redactions, and the drawn opaque boxes.  The document
collaborator (PyMuPDF) is abstracted to these three effects, which is all
`export_pdf.py` does to a page. -/
structure PdfPage where
  annots : List PdfRect
  removed : List PdfRect
  drawn : List PdfRect
deriving DecidableEq

/-- One PDF redaction directive; `none` models a missing JSON key. -/
structure PdfRedaction where
  accepted : Option Bool
  category : Option String
  coordinates : Option Coordinates
deriving DecidableEq

/-- `fitz.Rect(x, y, x + width, y + height)` from a directive's coordinates. -/
def rectOf (c : Coordinates) : PdfRect :=
  ⟨c.x, c.y, c.x + c.width, c.y + c.height⟩

/-- `page.add_redact_annot(rect)` on page index `i` (no-op on a bad index,
which the caller has already excluded). -/
def addAnnot (doc : List PdfPage) (i : ℕ) (rect : PdfRect) : List PdfPage :=
  match doc[i]? with
  | some pg => doc.set i { pg with annots := pg.annots ++ [rect] }
  | none => doc

/-- `page.draw_rect(rect, fill=black)` on page index `i`. -/
def drawRect (doc : List PdfPage) (i : ℕ) (rect : PdfRect) : List PdfPage :=
  match doc[i]? with
  | some pg => doc.set i { pg with drawn := pg.drawn ++ [rect] }
  | none => doc

/-- `page.apply_redactions()`: commit all pending annotations as permanent
content removal. -/
def commitPage (pg : PdfPage) : PdfPage :=
  { annots := [], removed := pg.removed ++ pg.annots, drawn := pg.drawn }

/-- Body of the directive loop of `apply_text_redactions`
(`export_pdf.py` lines 16-39): skip unless accepted (`.get('accepted',
False)`), read `coordinates` (`KeyError` if missing), skip silently on an
out-of-range page, otherwise queue the redaction annotation. -/
def textStep (d : List PdfPage) (r : PdfRedaction) : Option (List PdfPage) := do
  if r.accepted.getD false then do
    let coords ← r.coordinates
    let pn : ℤ := coords.page - 1
    if pn < 0 ∨ (d.length : ℤ) ≤ pn then
      pure d
    else
      pure (addAnnot d pn.toNat (rectOf coords))
  else
    pure d

/-- `apply_text_redactions` (`export_pdf.py` lines 13-43): queue a redaction
annotation for every accepted directive whose page index is in range, then
apply the pending redactions on every page.  `none` models a `KeyError`
(directive accepted but without `coordinates`) escaping to the caller. -/
def applyTextRedactions (doc : List PdfPage) (rs : List PdfRedaction) :
    Option (List PdfPage) := do
  let doc1 ← rs.foldlM textStep doc
  pure (doc1.map commitPage)

/-- Body of the directive loop of `apply_image_redactions`
(`export_pdf.py` lines 48-69): the `accepted` check short-circuits before
`category` is read, matching the Python `or`; a non-`FACES` or
out-of-range directive is skipped; otherwise the opaque box is drawn. -/
def imageStep (d : List PdfPage) (r : PdfRedaction) : Option (List PdfPage) := do
  if r.accepted.getD false then do
    let cat ← r.category
    if cat = "FACES" then do
      let coords ← r.coordinates
      let pn : ℤ := coords.page - 1
      if pn < 0 ∨ (d.length : ℤ) ≤ pn then
        pure d
      else
        pure (drawRect d pn.toNat (rectOf coords))
    else
      pure d
  else
    pure d

/-- `apply_image_redactions` (`export_pdf.py` lines 45-69): draw an opaque
box for every accepted `FACES` directive whose page index is in range. -/
def applyImageRedactions (doc : List PdfPage) (rs : List PdfRedaction) :
    Option (List PdfPage) :=
  rs.foldlM imageStep doc

/-- Category key with the lookup the filters use; only applied under the
all-categories-present guard. -/
def catKey (r : PdfRedaction) : String := r.category.getD ""

/-- `export_redacted_pdf` (`export_pdf.py` lines 71-94), with file open/save
factored out: split the directives on `category != 'FACES'` (the list
comprehensions read `category` of every directive, so one directive without
it raises), apply text redactions, then image redactions.  `none` models the
`except` branch: the CLI reports failure and writes no output. -/
def exportRedactedPdf (doc : List PdfPage) (rs : List PdfRedaction) :
    Option (List PdfPage) := do
  if rs.all (fun r => r.category.isSome) then do
    let textR := rs.filter (fun r => catKey r ≠ "FACES")
    let imageR := rs.filter (fun r => catKey r = "FACES")
    let doc1 ← applyTextRedactions doc textR
    let doc2 ← applyImageRedactions doc1 imageR
    pure doc2
  else
    none

/-- Spec-side: whether directive `r` addresses page index `p` as an applied
candidate: accepted with coordinates naming page `p + 1`. -/
def hitsPage (r : PdfRedaction) (p : ℕ) : Bool :=
  r.accepted.getD false &&
    (match r.coordinates with
     | some c => decide (c.page - 1 = (p : ℤ))
     | none => false)

/-- Coordinates of a directive known to carry them. -/
def coordsOf (r : PdfRedaction) : Coordinates := r.coordinates.getD ⟨0, 0, 0, 0, 0⟩

/-- Spec-side: the content-removal boxes page index `p` receives — one per
applied non-FACES directive addressing it, in directive order. -/
def textRects (rs : List PdfRedaction) (p : ℕ) : List PdfRect :=
  (rs.filter (fun r => hitsPage r p && decide (catKey r ≠ "FACES"))).map
    (fun r => rectOf (coordsOf r))

/-- Spec-side: the drawn opaque boxes page index `p` receives — one per
applied FACES directive addressing it, in directive order. -/
def faceRects (rs : List PdfRedaction) (p : ℕ) : List PdfRect :=
  (rs.filter (fun r => hitsPage r p && decide (catKey r = "FACES"))).map
    (fun r => rectOf (coordsOf r))

/-! ## `process_page.find_text_positions` (the text locator) -/

/-- Python `s.lower()` (per-character simple lowercasing). -/
def pyLower (s : String) : String := (s.toList.map Char.toLower).asString

/-- Split on a character predicate, keeping empty fields. -/
def splitOnP (p : Char → Bool) : List Char → List (List Char)
  | [] => [[]]
  | c :: cs =>
    match splitOnP p cs with
    | [] => [[c]]
    | h :: t => if p c then [] :: h :: t else (c :: h) :: t

/-- Python `s.split()` with no argument: split on whitespace runs, dropping
empty fields. -/
def pySplit (cs : List Char) : List (List Char) :=
  (splitOnP Char.isWhitespace cs).filter (fun f => f ≠ [])

/-- One word box from `page.get_text("words")`: `(x0, y0, x1, y1, text, …)`. -/
structure Word where
  x0 : ℚ
  y0 : ℚ
  x1 : ℚ
  y1 : ℚ
  text : String
deriving DecidableEq

/-- The two page capabilities `find_text_positions` consumes: exact search
(`page.search_for`) and word-level boxes (`page.get_text("words")`). -/
structure PageData where
  search : String → List PdfRect
  words : List Word

/-- The `{x, y, width, height}` dictionary the locator returns. -/
structure FoundBox where
  x : ℚ
  y : ℚ
  width : ℚ
  height : ℚ
deriving DecidableEq

/-- Box of the first exact search hit: `rect.x0, rect.y0, x1-x0, y1-y0`. -/
def boxOfRect (r : PdfRect) : FoundBox := ⟨r.x0, r.y0, r.x1 - r.x0, r.y1 - r.y0⟩

/-- Box of a word tuple: `word[0], word[1], word[2]-word[0], word[3]-word[1]`. -/
def boxOfWord (w : Word) : FoundBox := ⟨w.x0, w.y0, w.x1 - w.x0, w.y1 - w.y0⟩

/-- The three-strategy fuzzy score of one word against the candidate text
(`process_page.py` lines 242-263): exact token equality scores `1.0`;
two-way substring containment scores `min(len)/max(len)` (written `mkRat`
so it evaluates by kernel reduction; `mkRat` of a zero denominator is `0`,
which only arises when both strings are empty — there Python raises a
`ZeroDivisionError` that the enclosing handler turns into an empty result,
observably the same rejection); a word containing the candidate's first
token scores `0.8`. -/
def wordScore (target : String) (w : Word) : ℚ :=
  let wordText := (pyLower w.text).toList
  let targetWords := pySplit (pyLower target).toList
  if wordText ∈ targetWords then 1
  else if containsSeq (pyLower target).toList wordText ∨
      containsSeq wordText (pyLower target).toList then
    mkRat (min target.length wordText.length : ℕ) (max target.length wordText.length)
  else
    match targetWords with
    | [] => 0
    | t0 :: _ => if containsSeq t0 wordText then mkRat 8 10 else 0

/-- One step of the best-match fold: keep the incumbent unless the new
word scores strictly higher (`if score > best_score`). -/
def bestStep (target : String) (acc : Option Word × ℚ) (w : Word) : Option Word × ℚ :=
  let score := wordScore target w
  if acc.2 < score then (some w, score) else acc

/-- The best-match fold (`best_match`/`best_score`, strict improvement
only, starting from `None`/`0`). -/
def bestWord (target : String) (ws : List Word) : Option Word × ℚ :=
  ws.foldl (bestStep target) (none, 0)

/-- Locating one candidate text (the per-target body of
`find_text_positions`, `process_page.py` lines 214-275): the first exact
search hit wins; otherwise the best-scoring word is taken when its score
exceeds `0.3`; otherwise the text is unmatched. -/
def locateText (p : PageData) (target : String) : Option FoundBox :=
  match p.search target with
  | r :: _ => some (boxOfRect r)
  | [] =>
    match bestWord target p.words with
    | (some w, s) => if mkRat 3 10 < s then some (boxOfWord w) else none
    | (none, _) => none

/-- `find_text_positions` as a mapping: one entry per target the locator
placed.  (The Python dict is keyed by the target text; a repeated target
recomputes the same box, so an association list in target order carries the
same mapping.) -/
def findTextPositions (p : PageData) (targets : List String) :
    List (String × FoundBox) :=
  targets.filterMap (fun t => (locateText p t).map (fun b => (t, b)))

/-! ## `process_page.process_page` -/

/-- One extracted page image as face detection sees it: the PNG byte count
and the bounding box (`extract_images_from_page`). -/
structure PdfImage where
  dataSize : ℕ
  bbox : PdfRect

/-- A redaction candidate as emitted by `process_page`: the parsed object's
fields (its `text` also extracted), plus the `id`, `coordinates` and
`accepted` fields the worker adds.  (`confidence`/`reason` of face
candidates are carried in `fields` only as far as the integer-valued JSON
model allows; no claim reads them.) -/
structure Candidate where
  fields : List (String × Json)
  text : String
  id : String
  coordinates : Coordinates
  accepted : Bool

/-- `"page_" + n + "_redaction_" + i` (decimal rendering). -/
def redactionId (pageNumber i : ℕ) : String :=
  (("page_").toList ++ natToDigits pageNumber ++ ("_redaction_").toList ++
    natToDigits i).asString

/-- `"page_" + n + "_face_" + k` (decimal rendering). -/
def faceId (pageNumber k : ℕ) : String :=
  (("page_").toList ++ natToDigits pageNumber ++ ("_face_").toList ++
    natToDigits k).asString

/-- The fallback coordinates of an unlocated candidate
(`process_page.py` lines 365-371): `x = 100 + 50·i`, `y = 100 + 30·i`,
`width = max(100, 8·len(text))`, `height = 20` (all integer arithmetic in
the source). -/
def fallbackCoords (pageNumber i : ℕ) (text : String) : Coordinates :=
  { page := (pageNumber : ℤ)
    x := ((100 + i * 50 : ℕ) : ℚ)
    y := ((100 + i * 30 : ℕ) : ℚ)
    width := ((max 100 (text.length * 8) : ℕ) : ℚ)
    height := ((20 : ℕ) : ℚ) }

/-- The `text` value of a parsed model item, required to be an object with a
string `"text"` and some `"category"` (the debug loop at
`process_page.py` lines 338-339 reads both; a missing key or a non-string
text raises before any candidate is emitted). -/
def itemTextCategory (j : Json) : Option (List (String × Json) × String) :=
  match j with
  | .obj fs =>
    match fs.lookup "text", fs.lookup "category" with
    | some (.str t), some _ => some (fs, t)
    | _, _ => none
  | _ => none

/-- Assemble one model-derived candidate (`process_page.py` lines 346-375):
locate its text, fall back to the estimated coordinates, set the id and
`accepted = False`. -/
def mkModelCandidate (page : PageData) (pageNumber : ℕ) (i : ℕ)
    (fs : List (String × Json)) (t : String) : Candidate :=
  { fields := fs
    text := t
    id := redactionId pageNumber i
    coordinates :=
      match locateText page t with
      | some b =>
        { page := (pageNumber : ℤ), x := b.x, y := b.y,
          width := b.width, height := b.height }
      | none => fallbackCoords pageNumber i t
    accepted := false }

/-- `detect_faces_in_images` (`process_page.py` lines 283-304): an image
whose byte size exceeds 10000 is assumed to contain a face, covered at its
bounding box. -/
def detectFaces (images : List PdfImage) : List PdfImage :=
  images.filter (fun img => 10000 < img.dataSize)

/-- One face candidate (`process_page.py` lines 291-302 and 382-385); `k`
is `len(redactions)` of the model-derived list at extension time, the same
for every face. -/
def mkFaceCandidate (pageNumber k : ℕ) (img : PdfImage) : Candidate :=
  { fields := [("text", .str ("DETECTED_FACE")), ("category", .str ("FACES")),
      ("reason", .str ("Human face detected in image"))]
    text := "DETECTED_FACE"
    id := faceId pageNumber k
    coordinates :=
      { page := (pageNumber : ℤ), x := img.bbox.x0, y := img.bbox.y0,
        width := img.bbox.x1 - img.bbox.x0, height := img.bbox.y1 - img.bbox.y0 }
    accepted := false }

/-- `process_page` (`process_page.py` lines 306-389) with the collaborators
(extracted page text, the model's reply, the page search/word data, the
extracted images) passed as inputs.  Returns `none` for the exception path
(a parsed item that is not an object with a string `text` and a `category`,
or a reply that parses to a non-array), `some []` for an empty page or a
failed model call, and the candidate list otherwise. -/
def processPage (pageText : String) (modelResponse : Option String)
    (page : PageData) (images : List PdfImage) (pageNumber : ℕ)
    (profile : String) : Option (List Candidate) :=
  if pyStrip pageText.toList = [] then some []
  else
    match modelResponse with
    | none => some []
    | some resp =>
      match parseModelResponse resp.toList with
      | .arr items => do
        let parsed ← items.mapM itemTextCategory
        let modelCands := parsed.mapIdx (fun i p => mkModelCandidate page pageNumber i p.1 p.2)
        let faceCands :=
          if profile = "deep" then
            (detectFaces images).map (mkFaceCandidate pageNumber modelCands.length)
          else
            []
        pure (modelCands ++ faceCands)
      | _ => none

/-! ## `ollama_manager.OllamaManager.start_ollama_service`

Interleaving model of the supervisor's startup path
(`ollama_manager.py` lines 44-79).  Shared state: whether the local health
endpoint answers (`is_ollama_running`), and how many service child
processes have been launched (`subprocess.Popen` at line 58).  A thread
executing `start_ollama_service` first probes, then — if the probe failed —
launches the child and polls.  The source takes no lock anywhere on this
path (the `threading` import is unused), so the interleaving of two
callers is unconstrained between the probe and the launch. -/

/-- Shared supervisor state. -/
structure SupState where
  serviceUp : Bool
  procCount : ℕ
deriving Repr, DecidableEq

/-- Program counter of one thread inside `start_ollama_service`:
about to probe; probe failed and about to `Popen`; polling the health
endpoint; returned (with success flag). -/
inductive SupPC where
  | start
  | launching
  | polling
  | done (ok : Bool)
deriving Repr, DecidableEq

/-- Steps of one thread running `start_ollama_service`, plus the external
event of the launched service becoming healthy. -/
inductive supStep : SupState × SupPC → SupState × SupPC → Prop where
  | probeUp (s : SupState) (h : s.serviceUp = true) :
      supStep (s, .start) (s, .done true)
  | probeDown (s : SupState) (h : s.serviceUp = false) :
      supStep (s, .start) (s, .launching)
  | spawn (s : SupState) :
      supStep (s, .launching) ({ s with procCount := s.procCount + 1 }, .polling)
  | pollUp (s : SupState) (h : s.serviceUp = true) :
      supStep (s, .polling) (s, .done true)
  | pollTimeout (s : SupState) :
      supStep (s, .polling) (s, .done false)
  | serviceComesUp (s : SupState) (pc : SupPC) (h : 0 < s.procCount) :
      supStep (s, pc) ({ s with serviceUp := true }, pc)

/-- Two concurrent invocations on the same supervisor instance: either
thread takes a step (the shared-state component is common). -/
inductive supStep2 : SupState × SupPC × SupPC → SupState × SupPC × SupPC → Prop where
  | left (s s' : SupState) (a a' b : SupPC) (h : supStep (s, a) (s', a')) :
      supStep2 (s, a, b) (s', a', b)
  | right (s s' : SupState) (a b b' : SupPC) (h : supStep (s, b) (s', b')) :
      supStep2 (s, a, b) (s', a, b')

/-! ## Helper lemmas -/

theorem pyMs_eq (q : ℚ) : pyMs q = pyTrunc (q * 1000) := by
  have h : mkRat (q.num * 1000) q.den = q * 1000 := by
    rw [Rat.mkRat_eq_div]
    push_cast
    rw [div_eq_iff (by exact_mod_cast q.den_ne_zero)]
    rw [mul_comm q 1000, mul_assoc]
    rw [Rat.mul_den_eq_num]
    ring
  rw [pyMs, h]

theorem decimalVal_eq (n f l : ℕ) :
    decimalVal n f l = (n : ℚ) + (f : ℚ) / ((10 : ℚ) ^ l) := by
  rw [decimalVal, Rat.mkRat_eq_div]
  push_cast
  field_simp

theorem clockSum_eq (hours minutes : ℤ) (seconds : ℚ) :
    clockSum hours minutes seconds =
      (hours : ℚ) * 3600 + (minutes : ℚ) * 60 + seconds := by
  rw [clockSum, Rat.mkRat_eq_div]
  push_cast
  have hden : ((seconds.den : ℚ)) ≠ 0 := by exact_mod_cast seconds.den_ne_zero
  rw [add_div, mul_div_assoc, div_self hden, mul_one, Rat.num_div_den]

theorem splice_length (audio : Audio) (s e : ℤ) (repl : Audio)
    (h0 : 0 ≤ s) (hse : s ≤ e) (hlen : e ≤ (audio.length : ℤ)) :
    ((splice audio s.toNat e.toNat repl).length : ℤ) =
      (audio.length : ℤ) - (e - s) + repl.length := by
  simp [splice, List.length_take, List.length_drop]
  omega

/-! ## Claim C5 -/

/-- Claim C5: `convert_timestamp_to_seconds` maps the clock string
`"00:00:01.640"` to `1.64` seconds; maps a bare numeric within `[0, 10000]`
to itself; and maps every value failing validation — an hour above 23, a
minute above 59, a second of 60 or more, an out-of-bounds numeric, a
malformed clock string, or an unparseable field — to `0.0`.  The embedding
is a total function, mirroring that the Python function never lets an
exception escape (every failure path logs a warning and returns `0.0`). -/
theorem convert_timestamp_spec :
    convertTimestampToSeconds (.str ("00:00:01.640")) = mkRat 41 25 ∧
    (∀ q : ℚ, 0 ≤ q → q ≤ 10000 → convertTimestampToSeconds (.num q) = q) ∧
    (∀ q : ℚ, ¬ (0 ≤ q ∧ q ≤ 10000) → convertTimestampToSeconds (.num q) = 0) ∧
    (∀ (s : String) (p0 p1 p2 : String) (hours minutes : ℤ) (seconds : ℚ),
      s.toList.contains ':' = true →
      (splitOnChar ':' s.toList).map List.asString = [p0, p1, p2] →
      pyParseInt p0 = some hours → pyParseInt p1 = some minutes →
      pyParseFloat p2 = some seconds →
      (23 < hours ∨ 59 < minutes ∨ 60 ≤ seconds) →
      convertTimestampToSeconds (.str s) = 0) ∧
    (∀ s : String, s.toList.contains ':' = true →
      ((splitOnChar ':' s.toList).map List.asString).length ≠ 3 →
      convertTimestampToSeconds (.str s) = 0) ∧
    (∀ (s : String) (p0 p1 p2 : String),
      s.toList.contains ':' = true →
      (splitOnChar ':' s.toList).map List.asString = [p0, p1, p2] →
      (pyParseInt p0 = none ∨ pyParseInt p1 = none ∨ pyParseFloat p2 = none) →
      convertTimestampToSeconds (.str s) = 0) := by
  refine ⟨by decide, ?_, ?_, ?_, ?_, ?_⟩
  · intro q h0 h1
    simp [convertTimestampToSeconds, h0, h1]
  · intro q h
    simp only [convertTimestampToSeconds, if_neg h]
  · intro s p0 p1 p2 hours minutes seconds hc hsplit hp0 hp1 hp2 hbad
    have hle : ¬ (0 ≤ hours ∧ hours ≤ 23 ∧ 0 ≤ minutes ∧ minutes ≤ 59 ∧
        0 ≤ seconds ∧ seconds ≤ mkRat 59999 1000) := by
      have hm : (mkRat 59999 1000 : ℚ) < 60 := by
        rw [Rat.mkRat_eq_div]
        norm_num
      rcases hbad with h | h | h
      · rintro ⟨-, h23, -⟩; omega
      · rintro ⟨-, -, -, h59, -⟩; omega
      · rintro ⟨-, -, -, -, -, hs⟩; linarith
    simp only [convertTimestampToSeconds, hc, if_true, hsplit, hp0, hp1, hp2, if_neg hle]
  · intro s hc hlen
    simp only [convertTimestampToSeconds, hc, if_true]
    rcases hsp : (splitOnChar ':' s.toList).map List.asString with - | ⟨a, - | ⟨b, - | ⟨c, - | d⟩⟩⟩
    · simp [hsp]
    · simp [hsp]
    · simp [hsp]
    · exact absurd (by rw [hsp]; rfl : ((splitOnChar ':' s.toList).map List.asString).length = 3) hlen
    · simp [hsp]
  · intro s p0 p1 p2 hc hsplit hnone
    simp only [convertTimestampToSeconds, hc, if_true, hsplit]
    rcases hnone with h | h | h
    · rcases h1 : pyParseInt p1 with - | m <;> rcases h2 : pyParseFloat p2 with - | sec <;>
        simp [h, h1, h2]
    · rcases h0 : pyParseInt p0 with - | hh <;> rcases h2 : pyParseFloat p2 with - | sec <;>
        simp [h, h0, h2]
    · rcases h0 : pyParseInt p0 with - | hh <;> rcases h1 : pyParseInt p1 with - | m <;>
        simp [h, h0, h1]

/-- Witness for `convert_timestamp_spec` at concrete inputs, including the
spec's `"25:00:00"` invalid-hour scenario. -/
theorem convert_timestamp_spec_witness :
    convertTimestampToSeconds (.num 5) = 5 ∧
    convertTimestampToSeconds (.num 20000) = 0 ∧
    convertTimestampToSeconds (.str ("25:00:00")) = 0 ∧
    convertTimestampToSeconds (.str ("1:2")) = 0 ∧
    convertTimestampToSeconds (.str ("aa:bb:cc")) = 0 :=
  ⟨convert_timestamp_spec.2.1 5 (by norm_num) (by norm_num),
   convert_timestamp_spec.2.2.1 20000 (by norm_num),
   convert_timestamp_spec.2.2.2.1 "25:00:00" ("25") ("00") ("00") 25 0 0
     (by decide) (by decide) (by decide) (by decide) (by decide) (by norm_num),
   convert_timestamp_spec.2.2.2.2.1 "1:2" (by decide) (by decide),
   convert_timestamp_spec.2.2.2.2.2 "aa:bb:cc" ("aa") ("bb") ("cc")
     (by decide) (by decide) (Or.inl (by decide))⟩

/-! ## Claim C2 -/

/-- Claim C2: before application a directive's interval is clamped to
`[0, content_duration]` (in milliseconds, against the audio as it stands
when the directive is processed); if the clamped interval has
`start >= end` — an inverted or empty interval — the directive leaves the
audio unchanged, and the remaining directives in the processing order are
still applied. -/
theorem audio_invalid_interval_skipped (shift : Audio → Option Audio)
    (audio₀ a1 : Audio) (pre post : List AudioRedaction) (r : AudioRedaction)
    (st et : ℚ)
    (hpre : pre.foldlM (applyOne shift) audio₀ = some a1)
    (hst : r.start_time = some st) (het : r.end_time = some et)
    (hcollapse : min ((a1.length : ℤ)) (pyMs et) ≤ max 0 (pyMs st)) :
    applyOne shift a1 r = some a1 ∧
    (pre ++ r :: post).foldlM (applyOne shift) audio₀ =
      (pre ++ post).foldlM (applyOne shift) audio₀ := by
  have h1 : applyOne shift a1 r = some a1 := by
    simp only [applyOne, hst, het, Option.bind_eq_bind, Option.some_bind]
    rw [if_pos hcollapse]
    rfl
  refine ⟨h1, ?_⟩
  rw [List.foldlM_append, List.foldlM_append, hpre]
  simp [h1]

/-- Witness for `audio_invalid_interval_skipped`: the spec's inverted
interval `{start_time: 2.0, end_time: 1.0}` on a 5 ms clip is a no-op and
the following directive is still applied. -/
theorem audio_invalid_interval_skipped_witness :
    applyOne (fun _ => none) [1, 2, 3, 4, 5]
      ⟨some 2, some 1, some ("silence")⟩ = some [1, 2, 3, 4, 5] ∧
    ([] ++ (⟨some 2, some 1, some ("silence")⟩ : AudioRedaction) ::
        [⟨some 0, some (mkRat 2 1000), some ("silence")⟩]).foldlM
        (applyOne (fun _ => none)) [1, 2, 3, 4, 5] =
      ([] ++ [(⟨some 0, some (mkRat 2 1000), some ("silence")⟩ : AudioRedaction)]).foldlM
        (applyOne (fun _ => none)) [1, 2, 3, 4, 5] :=
  audio_invalid_interval_skipped (fun _ => none) [1, 2, 3, 4, 5] [1, 2, 3, 4, 5]
    [] [⟨some 0, some (mkRat 2 1000), some ("silence")⟩]
    ⟨some 2, some 1, some ("silence")⟩ 2 1 rfl rfl rfl (by decide)

/-! ## Claim C1 -/

/-- Folding the directive loop relates output length to the ledger of
applied (clamped) interval lengths and replacement lengths. -/
theorem foldlM_durationLedger (shift : Audio → Option Audio) :
    ∀ (ds : List AudioRedaction) (audio out : Audio),
      ds.foldlM (applyOne shift) audio = some out →
      ∃ L, durationLedger shift audio ds = some L ∧
        (out.length : ℤ) + ((L.map Prod.fst).sum : ℤ) =
          (audio.length : ℤ) + ((L.map Prod.snd).sum : ℤ)
  | [], audio, out, h => by
    simp only [List.foldlM_nil] at h
    obtain rfl : audio = out := by simpa using h
    exact ⟨[], rfl, by simp⟩
  | r :: ds, audio, out, h => by
    rw [List.foldlM_cons] at h
    rcases ha0 : applyOne shift audio r with - | a'
    · rw [ha0] at h
      simp at h
    rw [ha0] at h
    simp only [Option.bind_eq_bind, Option.some_bind] at h
    obtain ⟨L', hL', heq⟩ := foldlM_durationLedger shift ds a' out h
    rcases hst : r.start_time with - | st
    · rw [applyOne, hst] at ha0
      simp at ha0
    rcases het : r.end_time with - | et
    · rw [applyOne, hst, het] at ha0
      simp at ha0
    have ha' := ha0
    rw [applyOne, hst, het] at ha'
    simp only [Option.bind_eq_bind, Option.some_bind] at ha'
    simp only [durationLedger, ha0, hL', hst, het, Option.bind_eq_bind, Option.some_bind]
    by_cases hse : min ((audio.length : ℤ)) (pyMs et) ≤ max 0 (pyMs st)
    · -- collapsed interval: skipped, audio unchanged, no ledger entry
      rw [if_pos hse] at ha'
      obtain rfl : a' = audio := by simpa using ha'.symm
      rw [if_pos hse]
      exact ⟨L', rfl, heq⟩
    · have hse' : max 0 (pyMs st) ≤ min ((audio.length : ℤ)) (pyMs et) :=
        le_of_not_le hse
      have hs0 : (0 : ℤ) ≤ max 0 (pyMs st) := le_max_left 0 _
      have hemax : min ((audio.length : ℤ)) (pyMs et) ≤ (audio.length : ℤ) :=
        min_le_left _ _
      have hget : ∀ repl : Audio,
          ((splice audio (max 0 (pyMs st)).toNat
            (min ((audio.length : ℤ)) (pyMs et)).toNat repl).length : ℤ) =
            (audio.length : ℤ) -
              (min ((audio.length : ℤ)) (pyMs et) - max 0 (pyMs st)) + repl.length :=
        fun repl => splice_length audio _ _ repl hs0 hse' hemax
      have hdur : (((min ((audio.length : ℤ)) (pyMs et) - max 0 (pyMs st)).toNat : ℤ)) =
          min ((audio.length : ℤ)) (pyMs et) - max 0 (pyMs st) := by omega
      rw [if_neg hse] at ha'
      rw [if_neg hse]
      rcases hact : r.action with - | act
      · rw [hact] at ha'
        simp at ha'
      rw [hact] at ha'
      simp only [Option.bind_eq_bind, Option.some_bind] at ha'
      simp only [Option.bind_eq_bind, Option.some_bind]
      by_cases hsil : act = "silence"
      · rw [if_pos hsil] at ha'
        obtain rfl : a' = _ := by simpa using ha'.symm
        rw [if_pos (Or.inl hsil)]
        refine ⟨_ :: L', rfl, ?_⟩
        have hlen := hget (silentSegment
          (min ((audio.length : ℤ)) (pyMs et) - max 0 (pyMs st)).toNat)
        have hrl : (((silentSegment ((min ((audio.length : ℤ)) (pyMs et) -
            max 0 (pyMs st)).toNat)).length : ℕ) : ℤ) =
            (((min ((audio.length : ℤ)) (pyMs et) - max 0 (pyMs st)).toNat : ℕ) : ℤ) := by
          simp [silentSegment]
        simp only [List.map_cons, List.sum_cons]
        push_cast
        push_cast at heq
        omega
      · rw [if_neg hsil] at ha'
        by_cases hbeep : act = "beep"
        · rw [if_pos hbeep] at ha'
          obtain rfl : a' = _ := by simpa using ha'.symm
          rw [if_pos (Or.inr hbeep)]
          refine ⟨_ :: L', rfl, ?_⟩
          have hlen := hget (beepSegment 800
            (min ((audio.length : ℤ)) (pyMs et) - max 0 (pyMs st)).toNat)
          have hrl : (((beepSegment 800 ((min ((audio.length : ℤ)) (pyMs et) -
              max 0 (pyMs st)).toNat)).length : ℕ) : ℤ) =
              (((min ((audio.length : ℤ)) (pyMs et) - max 0 (pyMs st)).toNat : ℕ) : ℤ) := by
            simp [beepSegment]
          simp only [List.map_cons, List.sum_cons]
          push_cast
          push_cast at heq
          omega
        · rw [if_neg hbeep] at ha'
          rw [if_neg (by simp [hsil, hbeep])]
          by_cases hanon : act = "anonymize"
          · rw [if_pos hanon] at ha'
            rw [if_pos hanon]
            rcases hsh : shift ((audio.drop (max 0 (pyMs st)).toNat).take
                (min ((audio.length : ℤ)) (pyMs et) - max 0 (pyMs st)).toNat) with - | sg
            · rw [hsh] at ha'
              obtain rfl : a' = _ := by simpa using ha'.symm
              refine ⟨_ :: L', rfl, ?_⟩
              have hlen := hget (beepSegment 400
                (min ((audio.length : ℤ)) (pyMs et) - max 0 (pyMs st)).toNat)
              have hrl : (((beepSegment 400 ((min ((audio.length : ℤ)) (pyMs et) -
                  max 0 (pyMs st)).toNat)).length : ℕ) : ℤ) =
                  (((min ((audio.length : ℤ)) (pyMs et) - max 0 (pyMs st)).toNat : ℕ) : ℤ) := by
                simp [beepSegment]
              simp only [List.map_cons, List.sum_cons]
              push_cast
              push_cast at heq
              omega
            · rw [hsh] at ha'
              obtain rfl : a' = _ := by simpa using ha'.symm
              refine ⟨_ :: L', rfl, ?_⟩
              have hlen := hget sg
              simp only [List.map_cons, List.sum_cons]
              push_cast
              push_cast at heq
              omega
          · rw [if_neg hanon] at ha'
            rw [if_neg hanon]
            obtain rfl : a' = audio := by simpa using ha'.symm
            exact ⟨L', rfl, heq⟩

/-- In a list of silence/beep directives every ledger entry has replacement
length equal to its clamped interval length. -/
theorem durationLedger_silence_beep (shift : Audio → Option Audio) :
    ∀ (ds : List AudioRedaction) (audio : Audio) (L : List (ℕ × ℕ)),
      (∀ r ∈ ds, r.action = some ("silence") ∨ r.action = some ("beep")) →
      durationLedger shift audio ds = some L →
      ∀ p ∈ L, p.1 = p.2
  | [], _, L, _, hL => by
    simp only [durationLedger] at hL
    obtain rfl : L = [] := by simpa using hL.symm
    intro p hp
    simp at hp
  | r :: ds, audio, L, hact, hL => by
    rw [durationLedger] at hL
    rcases ha' : applyOne shift audio r with - | a' <;> rw [ha'] at hL
    · simp at hL
    simp only [Option.bind_eq_bind, Option.some_bind] at hL
    rcases hrest : durationLedger shift a' ds with - | L' <;> rw [hrest] at hL
    · simp at hL
    simp only [Option.bind_eq_bind, Option.some_bind] at hL
    have htail : ∀ p ∈ L', p.1 = p.2 :=
      durationLedger_silence_beep shift ds a' L'
        (fun x hx => hact x (List.mem_cons_of_mem r hx)) hrest
    rcases hst : r.start_time with - | st <;> rw [hst] at hL
    · simp at hL
    rcases het : r.end_time with - | et <;> rw [het] at hL
    · simp at hL
    simp only [Option.bind_eq_bind, Option.some_bind] at hL
    by_cases hse : min ((audio.length : ℤ)) (pyMs et) ≤ max 0 (pyMs st)
    · rw [if_pos hse] at hL
      obtain rfl : L = L' := by simpa using hL.symm
      exact htail
    · rw [if_neg hse] at hL
      rcases hact r (List.mem_cons_self r ds) with hsil | hbeep
      · rw [hsil] at hL
        simp only [Option.some_bind] at hL
        obtain rfl : L = _ :: L' := by simpa using hL.symm
        intro p hp
        rcases List.mem_cons.mp hp with rfl | hp'
        · rfl
        · exact htail p hp'
      · rw [hbeep] at hL
        simp only [Option.some_bind] at hL
        obtain rfl : L = _ :: L' := by simpa using hL.symm
        intro p hp
        rcases List.mem_cons.mp hp with rfl | hp'
        · rfl
        · exact htail p hp'

/-- Claim C1: a successful run of the audio redactor processes the
directives as the stable descending sort of the input by `start_time`
(latest first), and the output duration satisfies
`out = original − Σ applied clamped interval lengths + Σ replacement
segment lengths` over the ledger of applied directives; for silence and
beep directives every replacement has exactly the length of its clamped
interval, so such lists preserve the total duration. -/
theorem audio_redactor_duration (shift : Audio → Option Audio) (audio : Audio)
    (rs : List AudioRedaction) (out : Audio)
    (h : applyRedactions shift audio rs = some out) :
    (sortDesc rs).Perm rs ∧
    List.Sorted startGE (sortDesc rs) ∧
    ∃ L, durationLedger shift audio (sortDesc rs) = some L ∧
      (out.length : ℤ) =
        (audio.length : ℤ) - ((L.map Prod.fst).sum : ℤ) + ((L.map Prod.snd).sum : ℤ) ∧
      ((∀ r ∈ rs, r.action = some ("silence") ∨ r.action = some ("beep")) →
        ((∀ p ∈ L, p.1 = p.2) ∧ out.length = audio.length)) := by
  rw [applyRedactions] at h
  by_cases hall : rs.all (fun r => r.start_time.isSome)
  · rw [if_pos hall] at h
    obtain ⟨L, hL, heq⟩ := foldlM_durationLedger shift (sortDesc rs) audio out h
    have hperm : (sortDesc rs).Perm rs := List.perm_insertionSort startGE rs
    refine ⟨hperm, List.sorted_insertionSort startGE rs, L, hL, by omega, ?_⟩
    intro hsb
    have hsb' : ∀ r ∈ sortDesc rs, r.action = some ("silence") ∨ r.action = some ("beep") :=
      fun r hr => hsb r (hperm.mem_iff.mp hr)
    have hpt := durationLedger_silence_beep shift (sortDesc rs) audio L hsb' hL
    have hmap : L.map Prod.fst = L.map Prod.snd := List.map_congr_left hpt
    rw [hmap] at heq
    exact ⟨hpt, by omega⟩
  · rw [if_neg hall] at h
    simp at h

/-- Witness for `audio_redactor_duration`: the spec's inverted directive
plus one silence directive on a 5 ms clip. -/
theorem audio_redactor_duration_witness :
    (sortDesc [⟨some 2, some 1, some ("silence")⟩,
        ⟨some 0, some (mkRat 2 1000), some ("silence")⟩]).Perm
      [⟨some 2, some 1, some ("silence")⟩,
        ⟨some 0, some (mkRat 2 1000), some ("silence")⟩] ∧
    List.Sorted startGE (sortDesc [⟨some 2, some 1, some ("silence")⟩,
        ⟨some 0, some (mkRat 2 1000), some ("silence")⟩]) ∧
    ∃ L, durationLedger (fun _ => none) [1, 2, 3, 4, 5]
        (sortDesc [⟨some 2, some 1, some ("silence")⟩,
          ⟨some 0, some (mkRat 2 1000), some ("silence")⟩]) = some L ∧
      (([0, 0, 3, 4, 5] : Audio).length : ℤ) =
        (([1, 2, 3, 4, 5] : Audio).length : ℤ) -
          ((L.map Prod.fst).sum : ℤ) + ((L.map Prod.snd).sum : ℤ) ∧
      ((∀ r ∈ [(⟨some 2, some 1, some ("silence")⟩ : AudioRedaction),
          ⟨some 0, some (mkRat 2 1000), some ("silence")⟩],
          r.action = some ("silence") ∨ r.action = some ("beep")) →
        ((∀ p ∈ L, p.1 = p.2) ∧
          ([0, 0, 3, 4, 5] : Audio).length = ([1, 2, 3, 4, 5] : Audio).length)) :=
  audio_redactor_duration (fun _ => none) [1, 2, 3, 4, 5]
    [⟨some 2, some 1, some ("silence")⟩, ⟨some 0, some (mkRat 2 1000), some ("silence")⟩]
    [0, 0, 3, 4, 5] (by decide)

/-! ## Claim C8 -/

/-- An `Option` fold dies as soon as any element fails unconditionally. -/
theorem foldlM_none {α β : Type} (f : β → α → Option β) (r : α)
    (hfail : ∀ d, f d r = none) :
    ∀ (l : List α) (init : β), r ∈ l → l.foldlM f init = none
  | a :: t, init, hmem => by
    rw [List.foldlM_cons]
    rcases hfa : f init a with - | d
    · simp
    rcases List.mem_cons.mp hmem with rfl | ht
    · rw [hfail init] at hfa
      cases hfa
    · simp only [Option.bind_eq_bind, Option.some_bind]
      exact foldlM_none f r hfail t d ht

/-- Claim C8 as amended: only semantically invalid directives are skipped
individually; a directive missing a *field* for the requested mode aborts
the whole batch.  (a) audio: a directive without `start_time` (the sort key)
makes `apply_redactions` fail, applying nothing; (b) PDF: a directive
without `category` makes the export fail; (c) PDF: an accepted directive
without `coordinates` makes the export fail. -/
theorem missing_field_aborts_batch :
    (∀ (shift : Audio → Option Audio) (audio : Audio) (rs : List AudioRedaction)
        (r : AudioRedaction), r ∈ rs → r.start_time = none →
      applyRedactions shift audio rs = none) ∧
    (∀ (doc : List PdfPage) (rs : List PdfRedaction) (r : PdfRedaction),
        r ∈ rs → r.category = none → exportRedactedPdf doc rs = none) ∧
    (∀ (doc : List PdfPage) (rs : List PdfRedaction) (r : PdfRedaction),
        (∀ x ∈ rs, x.category.isSome) → r ∈ rs →
        r.accepted.getD false = true → r.coordinates = none →
      exportRedactedPdf doc rs = none) := by
  refine ⟨?_, ?_, ?_⟩
  · intro shift audio rs r hmem hnone
    rw [applyRedactions, if_neg]
    simp only [List.all_eq_true, not_forall]
    exact ⟨r, hmem, by simp [hnone]⟩
  · intro doc rs r hmem hnone
    rw [exportRedactedPdf, if_neg]
    simp only [List.all_eq_true, not_forall]
    exact ⟨r, hmem, by simp [hnone]⟩
  · intro doc rs r hall hmem hacc hnone
    rw [exportRedactedPdf, if_pos (by simpa [List.all_eq_true] using hall)]
    dsimp only
    by_cases hfaces : catKey r = "FACES"
    · -- the directive lands in the image pass; the text pass may or may not
      -- succeed, but the chain dies either way
      rcases htext : applyTextRedactions doc (rs.filter (fun r => catKey r ≠ "FACES")) with - | doc1
      · rfl
      · have himg : applyImageRedactions doc1 (rs.filter (fun r => catKey r = "FACES")) = none := by
          apply foldlM_none _ r
          · intro d
            rcases hcat : r.category with - | c
            · simp [imageStep, hacc, hcat]
            · have hc : c = "FACES" := by simpa [catKey, hcat] using hfaces
              simp [imageStep, hacc, hcat, hc, hnone]
          · exact List.mem_filter.mpr ⟨hmem, by simpa using hfaces⟩
        simp only [Option.bind_eq_bind, Option.some_bind]
        rw [himg]
        rfl
    · have htext : applyTextRedactions doc (rs.filter (fun r => catKey r ≠ "FACES")) = none := by
        rw [applyTextRedactions]
        have hfold : (rs.filter (fun r => catKey r ≠ "FACES")).foldlM textStep doc = none := by
          apply foldlM_none _ r
          · intro d
            simp [textStep, hacc, hnone]
          · exact List.mem_filter.mpr ⟨hmem, by simpa using hfaces⟩
        rw [hfold]
        rfl
      rw [htext]
      rfl

/-- Counterexample to claim C8 as stated: a batch with one well-formed
directive and one directive missing a required field fails as a whole
(audio: missing `start_time`; PDF: accepted but missing `coordinates`),
while the well-formed directive alone succeeds. -/
theorem missing_field_aborts_batch_counterexample :
    applyRedactions (fun _ => none) [1, 2, 3, 4, 5]
      [⟨some 0, some (mkRat 2 1000), some ("silence")⟩,
       ⟨none, some 1, some ("silence")⟩] = none ∧
    applyRedactions (fun _ => none) [1, 2, 3, 4, 5]
      [⟨some 0, some (mkRat 2 1000), some ("silence")⟩] = some [0, 0, 3, 4, 5] ∧
    exportRedactedPdf [⟨[], [], []⟩]
      [⟨some true, some ("PII"), some ⟨1, 0, 0, 1, 1⟩⟩,
       ⟨some true, some ("PII"), none⟩] = none :=
  ⟨by decide, by decide, rfl⟩

/-- Witness for `missing_field_aborts_batch` at concrete inputs. -/
theorem missing_field_aborts_batch_witness :
    applyRedactions (fun _ => none) [1, 2, 3]
      [⟨some 0, some 1, some ("beep")⟩, ⟨none, none, none⟩] = none ∧
    exportRedactedPdf [⟨[], [], []⟩] [⟨some true, none, none⟩] = none ∧
    exportRedactedPdf [⟨[], [], []⟩] [⟨some true, some ("CONTACT"), none⟩] = none :=
  ⟨missing_field_aborts_batch.1 (fun _ => none) [1, 2, 3]
      [⟨some 0, some 1, some ("beep")⟩, ⟨none, none, none⟩] ⟨none, none, none⟩
      (by decide) rfl,
   missing_field_aborts_batch.2.1 [⟨[], [], []⟩] [⟨some true, none, none⟩]
      ⟨some true, none, none⟩ (by decide) rfl,
   missing_field_aborts_batch.2.2 [⟨[], [], []⟩] [⟨some true, some ("CONTACT"), none⟩]
      ⟨some true, some ("CONTACT"), none⟩ (by decide) (by decide) rfl rfl⟩

/-! ## Claim C3 -/

theorem addAnnot_length (doc : List PdfPage) (i : ℕ) (rect : PdfRect) :
    (addAnnot doc i rect).length = doc.length := by
  rw [addAnnot]
  rcases h : doc[i]? with - | pg
  · rfl
  · exact List.length_set doc i _

theorem drawRect_length (doc : List PdfPage) (i : ℕ) (rect : PdfRect) :
    (drawRect doc i rect).length = doc.length := by
  rw [drawRect]
  rcases h : doc[i]? with - | pg
  · rfl
  · exact List.length_set doc i _

theorem addAnnot_getElem?_self (doc : List PdfPage) (i : ℕ) (rect : PdfRect) :
    (addAnnot doc i rect)[i]? =
      doc[i]?.map (fun pg => { pg with annots := pg.annots ++ [rect] }) := by
  rw [addAnnot]
  rcases h : doc[i]? with - | pg
  · simp [h]
  · have hi : i < doc.length := by
      by_contra hge
      rw [List.getElem?_eq_none (by omega)] at h
      cases h
    simp [h, List.getElem?_set_self hi]

theorem addAnnot_getElem?_ne (doc : List PdfPage) (i p : ℕ) (rect : PdfRect)
    (h : i ≠ p) : (addAnnot doc i rect)[p]? = doc[p]? := by
  rw [addAnnot]
  rcases hh : doc[i]? with - | pg
  · rfl
  · exact List.getElem?_set_ne h

theorem drawRect_getElem?_self (doc : List PdfPage) (i : ℕ) (rect : PdfRect) :
    (drawRect doc i rect)[i]? =
      doc[i]?.map (fun pg => { pg with drawn := pg.drawn ++ [rect] }) := by
  rw [drawRect]
  rcases h : doc[i]? with - | pg
  · simp [h]
  · have hi : i < doc.length := by
      by_contra hge
      rw [List.getElem?_eq_none (by omega)] at h
      cases h
    simp [h, List.getElem?_set_self hi]

theorem drawRect_getElem?_ne (doc : List PdfPage) (i p : ℕ) (rect : PdfRect)
    (h : i ≠ p) : (drawRect doc i rect)[p]? = doc[p]? := by
  rw [drawRect]
  rcases hh : doc[i]? with - | pg
  · rfl
  · exact List.getElem?_set_ne h

/-- The text-redaction fold succeeds when every accepted directive carries
coordinates, and each page receives exactly the annotations of the applied
directives addressing it, in directive order. -/
theorem foldlM_textStep_get :
    ∀ (ts : List PdfRedaction),
      (∀ r ∈ ts, r.accepted.getD false = true → r.coordinates.isSome = true) →
      ∀ doc : List PdfPage, ∃ docT, ts.foldlM textStep doc = some docT ∧
        docT.length = doc.length ∧
        ∀ p : ℕ, docT[p]? = doc[p]?.map (fun pg =>
          { pg with annots := pg.annots ++
              (ts.filter (fun r => hitsPage r p)).map (fun r => rectOf (coordsOf r)) })
  | [], _, doc => by
    refine ⟨doc, rfl, rfl, fun p => ?_⟩
    rcases h : doc[p]? with - | pg
    · rfl
    · simp
  | r :: ts, hc, doc => by
    have hctail : ∀ x ∈ ts, x.accepted.getD false = true → x.coordinates.isSome = true :=
      fun x hx => hc x (List.mem_cons_of_mem r hx)
    rw [List.foldlM_cons]
    by_cases hacc : r.accepted.getD false = true
    · rcases hco : r.coordinates with - | c
      · have := hc r (List.mem_cons_self r ts) hacc
        rw [hco] at this
        cases this
      by_cases hout : (c.page - 1 < 0 ∨ (doc.length : ℤ) ≤ c.page - 1)
      · -- out of range: the directive is silently skipped
        have hstep : textStep doc r = some doc := by
          simp only [textStep, hacc, if_pos, hco, Option.bind_eq_bind, Option.some_bind]
          rw [if_pos hout]
          rfl
        rw [hstep]
        simp only [Option.bind_eq_bind, Option.some_bind]
        obtain ⟨docT, hfold, hlen, hget⟩ := foldlM_textStep_get ts hctail doc
        refine ⟨docT, hfold, hlen, fun p => ?_⟩
        rw [hget p]
        rcases hdp : doc[p]? with - | pg
        · rfl
        · have hp : p < doc.length := by
            by_contra hge
            rw [List.getElem?_eq_none (by omega)] at hdp
            cases hdp
          have hmiss : hitsPage r p = false := by
            simp only [hitsPage, hacc, hco, Bool.true_and, decide_eq_false_iff_not]
            omega
          simp [List.filter_cons, hmiss]
      · -- in range: annotation queued on page (c.page - 1)
        have hstep : textStep doc r =
            some (addAnnot doc (c.page - 1).toNat (rectOf c)) := by
          simp only [textStep, hacc, if_pos, hco, Option.bind_eq_bind, Option.some_bind]
          rw [if_neg hout]
          rfl
        rw [hstep]
        simp only [Option.bind_eq_bind, Option.some_bind]
        obtain ⟨docT, hfold, hlen, hget⟩ :=
          foldlM_textStep_get ts hctail (addAnnot doc (c.page - 1).toNat (rectOf c))
        refine ⟨docT, hfold, by rw [hlen, addAnnot_length], fun p => ?_⟩
        rw [hget p]
        by_cases hp : (c.page - 1).toNat = p
        · subst hp
          rw [addAnnot_getElem?_self]
          rcases hdp : doc[(c.page - 1).toNat]? with - | pg
          · rfl
          · have hhit : hitsPage r (c.page - 1).toNat = true := by
              simp only [hitsPage, hacc, hco, Bool.true_and, decide_eq_true_eq]
              omega
            have hcoords : coordsOf r = c := by simp [coordsOf, hco]
            simp only [Option.map_some', List.filter_cons, hhit, if_true, List.map_cons,
              hcoords, List.append_assoc, List.singleton_append]
        · rw [addAnnot_getElem?_ne _ _ _ _ hp]
          rcases hdp : doc[p]? with - | pg
          · rfl
          · have hp' : p < doc.length := by
              by_contra hge
              rw [List.getElem?_eq_none (by omega)] at hdp
              cases hdp
            have hmiss : hitsPage r p = false := by
              simp only [hitsPage, hacc, hco, Bool.true_and, decide_eq_false_iff_not]
              omega
            simp [List.filter_cons, hmiss]
    · -- not accepted: skipped
      have hstep : textStep doc r = some doc := by
        simp [textStep, hacc]
      rw [hstep]
      simp only [Option.bind_eq_bind, Option.some_bind]
      obtain ⟨docT, hfold, hlen, hget⟩ := foldlM_textStep_get ts hctail doc
      refine ⟨docT, hfold, hlen, fun p => ?_⟩
      rw [hget p]
      have hmiss : hitsPage r p = false := by
        simp [hitsPage, hacc]
      simp [List.filter_cons, hmiss]

/-- The image-redaction fold succeeds when every accepted directive has a
category and every accepted FACES directive has coordinates, and each page
receives exactly the drawn boxes of the applied FACES directives addressing
it, in directive order. -/
theorem foldlM_imageStep_get :
    ∀ (ts : List PdfRedaction),
      (∀ r ∈ ts, r.accepted.getD false = true → r.category.isSome = true) →
      (∀ r ∈ ts, r.accepted.getD false = true → catKey r = "FACES" →
        r.coordinates.isSome = true) →
      ∀ doc : List PdfPage, ∃ docI, ts.foldlM imageStep doc = some docI ∧
        docI.length = doc.length ∧
        ∀ p : ℕ, docI[p]? = doc[p]?.map (fun pg =>
          { pg with drawn := (pg.drawn ++
              (ts.filter (fun r => hitsPage r p && decide (catKey r = "FACES"))).map
                (fun r => rectOf (coordsOf r))) })
  | [], _, _, doc => by
    refine ⟨doc, rfl, rfl, fun p => ?_⟩
    rcases h : doc[p]? with - | pg
    · rfl
    · simp
  | r :: ts, hcat, hc, doc => by
    have hcattail : ∀ x ∈ ts, x.accepted.getD false = true → x.category.isSome = true :=
      fun x hx => hcat x (List.mem_cons_of_mem r hx)
    have hctail : ∀ x ∈ ts, x.accepted.getD false = true → catKey x = "FACES" →
        x.coordinates.isSome = true :=
      fun x hx => hc x (List.mem_cons_of_mem r hx)
    rw [List.foldlM_cons]
    by_cases hacc : r.accepted.getD false = true
    · rcases hcato : r.category with - | cat
      · have := hcat r (List.mem_cons_self r ts) hacc
        rw [hcato] at this
        cases this
      by_cases hfc : cat = "FACES"
      · have hck : catKey r = "FACES" := by simp [catKey, hcato, hfc]
        rcases hco : r.coordinates with - | c
        · have := hc r (List.mem_cons_self r ts) hacc hck
          rw [hco] at this
          cases this
        by_cases hout : (c.page - 1 < 0 ∨ (doc.length : ℤ) ≤ c.page - 1)
        · have hstep : imageStep doc r = some doc := by
            simp only [imageStep, hacc, if_pos, hcato, hco,
              Option.bind_eq_bind, Option.some_bind]
            rw [if_pos hfc, if_pos hout]
            rfl
          rw [hstep]
          simp only [Option.bind_eq_bind, Option.some_bind]
          obtain ⟨docI, hfold, hlen, hget⟩ := foldlM_imageStep_get ts hcattail hctail doc
          refine ⟨docI, hfold, hlen, fun p => ?_⟩
          rw [hget p]
          rcases hdp : doc[p]? with - | pg
          · rfl
          · have hp : p < doc.length := by
              by_contra hge
              rw [List.getElem?_eq_none (by omega)] at hdp
              cases hdp
            have hmiss : hitsPage r p = false := by
              simp only [hitsPage, hacc, hco, Bool.true_and, decide_eq_false_iff_not]
              omega
            simp [List.filter_cons, hmiss]
        · have hstep : imageStep doc r =
              some (drawRect doc (c.page - 1).toNat (rectOf c)) := by
            simp only [imageStep, hacc, if_pos, hcato, hco,
              Option.bind_eq_bind, Option.some_bind]
            rw [if_pos hfc, if_neg hout]
            rfl
          rw [hstep]
          simp only [Option.bind_eq_bind, Option.some_bind]
          obtain ⟨docI, hfold, hlen, hget⟩ :=
            foldlM_imageStep_get ts hcattail hctail (drawRect doc (c.page - 1).toNat (rectOf c))
          refine ⟨docI, hfold, by rw [hlen, drawRect_length], fun p => ?_⟩
          rw [hget p]
          by_cases hp : (c.page - 1).toNat = p
          · subst hp
            rw [drawRect_getElem?_self]
            rcases hdp : doc[(c.page - 1).toNat]? with - | pg
            · rfl
            · have hhit : hitsPage r (c.page - 1).toNat = true := by
                simp only [hitsPage, hacc, hco, Bool.true_and, decide_eq_true_eq]
                omega
              have hcoords : coordsOf r = c := by simp [coordsOf, hco]
              simp only [Option.map_some', List.filter_cons, hhit, hck, decide_True,
                Bool.and_self, if_true, List.map_cons, hcoords, List.append_assoc,
                List.singleton_append]
          · rw [drawRect_getElem?_ne _ _ _ _ hp]
            rcases hdp : doc[p]? with - | pg
            · rfl
            · have hp' : p < doc.length := by
                by_contra hge
                rw [List.getElem?_eq_none (by omega)] at hdp
                cases hdp
              have hmiss : hitsPage r p = false := by
                simp only [hitsPage, hacc, hco, Bool.true_and, decide_eq_false_iff_not]
                omega
              simp [List.filter_cons, hmiss]
      · -- accepted but not FACES: skipped, and excluded by the category test
        have hstep : imageStep doc r = some doc := by
          simp only [imageStep, hacc, if_pos, hcato, Option.bind_eq_bind, Option.some_bind]
          rw [if_neg hfc]
          rfl
        rw [hstep]
        simp only [Option.bind_eq_bind, Option.some_bind]
        obtain ⟨docI, hfold, hlen, hget⟩ := foldlM_imageStep_get ts hcattail hctail doc
        refine ⟨docI, hfold, hlen, fun p => ?_⟩
        rw [hget p]
        have hmiss : (hitsPage r p && decide (catKey r = "FACES")) = false := by
          have : catKey r ≠ "FACES" := by simp [catKey, hcato, hfc]
          simp [this]
        simp [List.filter_cons, hmiss]
    · have hstep : imageStep doc r = some doc := by
        simp [imageStep, hacc]
      rw [hstep]
      simp only [Option.bind_eq_bind, Option.some_bind]
      obtain ⟨docI, hfold, hlen, hget⟩ := foldlM_imageStep_get ts hcattail hctail doc
      refine ⟨docI, hfold, hlen, fun p => ?_⟩
      rw [hget p]
      have hmiss : (hitsPage r p && decide (catKey r = "FACES")) = false := by
        simp [hitsPage, hacc]
      simp [List.filter_cons, hmiss]

/-- Claim C3: in PDF export (with every directive carrying a `category` and
every accepted one carrying `coordinates`, the well-formed case) the export
succeeds, and every page of the output has: no pending annotations; its
content-removal redactions extended by exactly one box per *accepted*
non-FACES directive addressing it; and its drawn opaque boxes extended by
exactly one box per *accepted* FACES directive addressing it — FACES
directives add nothing to content removal, non-FACES directives add nothing
to the drawn boxes, and dropping the non-accepted directives (absent or
false `accepted`) leaves the output unchanged. -/
theorem pdf_export_characterization (doc : List PdfPage) (rs : List PdfRedaction)
    (hcat : ∀ r ∈ rs, r.category.isSome = true)
    (hacc : ∀ r ∈ rs, r.accepted.getD false = true → r.coordinates.isSome = true) :
    ∃ doc', exportRedactedPdf doc rs = some doc' ∧
      doc'.length = doc.length ∧
      (∀ p : ℕ, doc'[p]? = doc[p]?.map (fun pg =>
        { annots := ([] : List PdfRect)
          removed := pg.removed ++ pg.annots ++ textRects rs p
          drawn := pg.drawn ++ faceRects rs p })) ∧
      exportRedactedPdf doc (rs.filter (fun r => r.accepted.getD false)) =
        exportRedactedPdf doc rs := by
  have main : ∀ rs2 : List PdfRedaction,
      (∀ r ∈ rs2, r.category.isSome = true) →
      (∀ r ∈ rs2, r.accepted.getD false = true → r.coordinates.isSome = true) →
      ∃ doc', exportRedactedPdf doc rs2 = some doc' ∧
        doc'.length = doc.length ∧
        (∀ p : ℕ, doc'[p]? = doc[p]?.map (fun pg =>
          { annots := ([] : List PdfRect)
            removed := pg.removed ++ pg.annots ++ textRects rs2 p
            drawn := pg.drawn ++ faceRects rs2 p })) := by
    intro rs2 hcat2 hacc2
    obtain ⟨docT, hfoldT, hlenT, hgetT⟩ :=
      foldlM_textStep_get (rs2.filter (fun r => catKey r ≠ "FACES"))
        (fun r hr => hacc2 r (List.mem_filter.mp hr).1) doc
    obtain ⟨docI, hfoldI, hlenI, hgetI⟩ :=
      foldlM_imageStep_get (rs2.filter (fun r => catKey r = "FACES"))
        (fun r hr _ => hcat2 r (List.mem_filter.mp hr).1)
        (fun r hr ha _ => hacc2 r (List.mem_filter.mp hr).1 ha)
        (docT.map commitPage)
    refine ⟨docI, ?_, ?_, ?_⟩
    · rw [exportRedactedPdf, if_pos (by simpa [List.all_eq_true] using hcat2)]
      dsimp only
      rw [applyTextRedactions]
      rw [hfoldT]
      simp only [Option.bind_eq_bind, Option.some_bind, Option.pure_def]
      rw [applyImageRedactions, hfoldI]
      rfl
    · rw [hlenI, List.length_map, hlenT]
    · intro p
      rw [hgetI p, List.getElem?_map, hgetT p]
      rcases hdp : doc[p]? with - | pg
      · rfl
      · simp only [Option.map_some', commitPage]
        have hA : ((rs2.filter (fun r => catKey r ≠ "FACES")).filter
            (fun r => hitsPage r p)).map (fun r => rectOf (coordsOf r)) = textRects rs2 p := by
          rw [List.filter_filter]
          rfl
        have hB : ((rs2.filter (fun r => catKey r = "FACES")).filter
            (fun r => hitsPage r p && decide (catKey r = "FACES"))).map
              (fun r => rectOf (coordsOf r)) = faceRects rs2 p := by
          rw [List.filter_filter]
          rw [faceRects]
          congr 1
          apply List.filter_congr
          intro x _
          by_cases hx : catKey x = "FACES" <;> simp [hx]
        rw [hA, hB, List.append_assoc]
  obtain ⟨doc', h1, h2, h3⟩ := main rs hcat hacc
  have hcatF : ∀ r ∈ rs.filter (fun r => r.accepted.getD false), r.category.isSome = true :=
    fun r hr => hcat r (List.mem_filter.mp hr).1
  have haccF : ∀ r ∈ rs.filter (fun r => r.accepted.getD false),
      r.accepted.getD false = true → r.coordinates.isSome = true :=
    fun r hr => hacc r (List.mem_filter.mp hr).1
  obtain ⟨doc'', g1, g2, g3⟩ := main (rs.filter (fun r => r.accepted.getD false)) hcatF haccF
  have htr : ∀ p : ℕ, textRects (rs.filter (fun r => r.accepted.getD false)) p = textRects rs p := by
    intro p
    rw [textRects, textRects, List.filter_filter]
    congr 1
    apply List.filter_congr
    intro x _
    by_cases hx : x.accepted.getD false = true
    · simp [hx]
    · simp [hitsPage, hx]
  have hfr : ∀ p : ℕ, faceRects (rs.filter (fun r => r.accepted.getD false)) p = faceRects rs p := by
    intro p
    rw [faceRects, faceRects, List.filter_filter]
    congr 1
    apply List.filter_congr
    intro x _
    by_cases hx : x.accepted.getD false = true
    · simp [hx]
    · simp [hitsPage, hx]
  have hsame : doc'' = doc' := by
    apply List.ext_getElem?
    intro p
    rw [g3 p, h3 p, htr p, hfr p]
  refine ⟨doc', h1, h2, h3, ?_⟩
  rw [g1, h1, hsame]

/-- Witness for `pdf_export_characterization`: one page, one accepted PII
directive and one accepted FACES directive. -/
theorem pdf_export_characterization_witness :
    ∃ doc', exportRedactedPdf [⟨[], [], []⟩]
        [⟨some true, some ("PII"), some ⟨1, 0, 0, 2, 3⟩⟩,
         ⟨some true, some ("FACES"), some ⟨1, 5, 5, 2, 2⟩⟩] = some doc' ∧
      doc'.length = ([⟨[], [], []⟩] : List PdfPage).length ∧
      (∀ p : ℕ, doc'[p]? = ([(⟨[], [], []⟩ : PdfPage)])[p]?.map (fun pg =>
        { annots := ([] : List PdfRect)
          removed := pg.removed ++ pg.annots ++
            textRects [⟨some true, some ("PII"), some ⟨1, 0, 0, 2, 3⟩⟩,
              ⟨some true, some ("FACES"), some ⟨1, 5, 5, 2, 2⟩⟩] p
          drawn := pg.drawn ++
            faceRects [⟨some true, some ("PII"), some ⟨1, 0, 0, 2, 3⟩⟩,
              ⟨some true, some ("FACES"), some ⟨1, 5, 5, 2, 2⟩⟩] p })) ∧
      exportRedactedPdf [⟨[], [], []⟩]
          ([⟨some true, some ("PII"), some ⟨1, 0, 0, 2, 3⟩⟩,
            ⟨some true, some ("FACES"), some ⟨1, 5, 5, 2, 2⟩⟩].filter
              (fun r => r.accepted.getD false)) =
        exportRedactedPdf [⟨[], [], []⟩]
          [⟨some true, some ("PII"), some ⟨1, 0, 0, 2, 3⟩⟩,
           ⟨some true, some ("FACES"), some ⟨1, 5, 5, 2, 2⟩⟩] :=
  pdf_export_characterization [⟨[], [], []⟩]
    [⟨some true, some ("PII"), some ⟨1, 0, 0, 2, 3⟩⟩,
     ⟨some true, some ("FACES"), some ⟨1, 5, 5, 2, 2⟩⟩]
    (by decide) (by decide)

/-! ## Claim C4 -/

/-- The best-match fold returns either its accumulator or a scanned word
with its own score; its score component only grows and dominates every
scanned word's score. -/
theorem bestStep_foldl (target : String) :
    ∀ (ws : List Word) (acc : Option Word × ℚ),
      (ws.foldl (bestStep target) acc = acc ∨
        ∃ w ∈ ws, ws.foldl (bestStep target) acc = (some w, wordScore target w)) ∧
      acc.2 ≤ (ws.foldl (bestStep target) acc).2 ∧
      ∀ w ∈ ws, wordScore target w ≤ (ws.foldl (bestStep target) acc).2
  | [], acc => ⟨Or.inl rfl, le_refl _, by simp⟩
  | w :: ws, acc => by
    rw [List.foldl_cons]
    obtain ⟨hcases, hmono, hmax⟩ := bestStep_foldl target ws (bestStep target acc w)
    have hstep2 : acc.2 ≤ (bestStep target acc w).2 := by
      simp only [bestStep]
      split
      · exact le_of_lt (by assumption)
      · exact le_refl _
    have hstepw : wordScore target w ≤ (bestStep target acc w).2 := by
      simp only [bestStep]
      split
      · exact le_refl _
      · exact le_of_not_lt (by assumption)
    refine ⟨?_, le_trans hstep2 hmono, ?_⟩
    · rcases hcases with heq | ⟨w', hw', heq⟩
      · rw [heq]
        simp only [bestStep]
        split
        · exact Or.inr ⟨w, List.mem_cons_self w ws, rfl⟩
        · exact Or.inl rfl
      · exact Or.inr ⟨w', List.mem_cons_of_mem w hw', heq⟩
    · intro w' hw'
      rcases List.mem_cons.mp hw' with rfl | hmem
      · exact le_trans hstepw hmono
      · exact hmax w' hmem

/-- If a text is not locatable, no mapping produced by
`find_text_positions` contains it. -/
theorem lookup_findTextPositions_none (p : PageData) (t : String)
    (h : locateText p t = none) :
    ∀ ts : List String, (findTextPositions p ts).lookup t = none
  | [] => rfl
  | t' :: ts => by
    rw [findTextPositions, List.filterMap_cons]
    rcases hl : locateText p t' with - | b
    · exact lookup_findTextPositions_none p t h ts
    · have hne : (t == t') = false := by
        by_cases he : t = t'
        · subst he
          rw [h] at hl
          cases hl
        · simpa using he
      simp only [Option.map_some', List.lookup, hne]
      exact lookup_findTextPositions_none p t h ts

/-- If a text is locatable and requested, the mapping produced by
`find_text_positions` carries its box. -/
theorem lookup_findTextPositions_some (p : PageData) (t : String) (b : FoundBox)
    (h : locateText p t = some b) :
    ∀ ts : List String, t ∈ ts → (findTextPositions p ts).lookup t = some b
  | t' :: ts, hmem => by
    rw [findTextPositions, List.filterMap_cons]
    by_cases he : t' = t
    · subst he
      rw [h]
      simp [List.lookup]
    · have hne : (t == t') = false := by
        simpa using fun hh : t = t' => he hh.symm
      have hmem' : t ∈ ts := by
        rcases List.mem_cons.mp hmem with rfl | hm
        · exact absurd rfl he
        · exact hm
      rcases hl : locateText p t' with - | b'
      · exact lookup_findTextPositions_some p t b h ts hmem'
      · simp only [Option.map_some', List.lookup, hne]
        exact lookup_findTextPositions_some p t b h ts hmem'

/-- Claim C4: (1) when exact search succeeds, the first hit's box is the
locator's answer, also inside the produced mapping (exact wins over fuzzy);
(2) when exact search fails and no word's fuzzy score exceeds `0.3`, the
candidate is unmatched and absent from every produced mapping; (3) any
fuzzy answer is the box of a scanned word whose score exceeds `0.3` and
dominates every other word's score under the three-strategy scheme. -/
theorem locator_spec :
    (∀ (p : PageData) (ts : List String) (t : String) (r : PdfRect) (rest : List PdfRect),
      t ∈ ts → p.search t = r :: rest →
      locateText p t = some (boxOfRect r) ∧
      (findTextPositions p ts).lookup t = some (boxOfRect r)) ∧
    (∀ (p : PageData) (ts : List String) (t : String),
      p.search t = [] → (∀ w ∈ p.words, wordScore t w ≤ mkRat 3 10) →
      locateText p t = none ∧ (findTextPositions p ts).lookup t = none) ∧
    (∀ (p : PageData) (t : String) (b : FoundBox),
      p.search t = [] → locateText p t = some b →
      ∃ w ∈ p.words, b = boxOfWord w ∧ mkRat 3 10 < wordScore t w ∧
        ∀ w' ∈ p.words, wordScore t w' ≤ wordScore t w) := by
  refine ⟨?_, ?_, ?_⟩
  · intro p ts t r rest hmem hsearch
    have hloc : locateText p t = some (boxOfRect r) := by
      rw [locateText, hsearch]
    exact ⟨hloc, lookup_findTextPositions_some p t (boxOfRect r) hloc ts hmem⟩
  · intro p ts t hsearch hlow
    obtain ⟨hcases, -, hmax⟩ := bestStep_foldl t p.words (none, 0)
    have hloc : locateText p t = none := by
      rcases hcases with heq | ⟨w, hw, heq⟩
      · simp only [locateText, hsearch, bestWord, heq]
      · simp only [locateText, hsearch, bestWord, heq]
        rw [if_neg (not_lt.mpr (hlow w hw))]
    exact ⟨hloc, lookup_findTextPositions_none p t hloc ts⟩
  · intro p t b hsearch hloc
    obtain ⟨hcases, -, hmax⟩ := bestStep_foldl t p.words (none, 0)
    rcases hcases with heq | ⟨w, hw, heq⟩
    · simp only [locateText, hsearch, bestWord, heq] at hloc
      cases hloc
    · simp only [locateText, hsearch, bestWord, heq] at hloc
      by_cases hthr : mkRat 3 10 < wordScore t w
      · rw [if_pos hthr] at hloc
        obtain rfl : b = boxOfWord w := ((Option.some.injEq _ _).mp hloc).symm
        exact ⟨w, hw, rfl, hthr, fun w' hw' => by
          have hle := hmax w' hw'
          rw [heq] at hle
          exact hle⟩
      · rw [if_neg hthr] at hloc
        cases hloc

/-- Witness for `locator_spec`: a page whose search knows `"hello"`, with
one word `"world"`; `"hello"` resolves exactly, `"xyzzy"` scores below the
threshold and is absent, `"worl"` matches fuzzily by containment. -/
theorem locator_spec_witness :
    (locateText ⟨fun s => if s = "hello" then [⟨1, 2, 3, 4⟩] else [], [⟨0, 0, 1, 1, "world"⟩]⟩
        "hello" = some (boxOfRect ⟨1, 2, 3, 4⟩) ∧
      (findTextPositions
        ⟨fun s => if s = "hello" then [⟨1, 2, 3, 4⟩] else [], [⟨0, 0, 1, 1, "world"⟩]⟩
        ["hello", "xyzzy"]).lookup "hello" = some (boxOfRect ⟨1, 2, 3, 4⟩)) ∧
    (locateText ⟨fun s => if s = "hello" then [⟨1, 2, 3, 4⟩] else [], [⟨0, 0, 1, 1, "world"⟩]⟩
        "xyzzy" = none ∧
      (findTextPositions
        ⟨fun s => if s = "hello" then [⟨1, 2, 3, 4⟩] else [], [⟨0, 0, 1, 1, "world"⟩]⟩
        ["hello", "xyzzy"]).lookup "xyzzy" = none) ∧
    (∃ w ∈ ([⟨0, 0, 1, 1, "world"⟩] : List Word),
      boxOfWord (⟨0, 0, 1, 1, "world"⟩ : Word) = boxOfWord w ∧
      mkRat 3 10 < wordScore "worl" w ∧
      ∀ w' ∈ ([⟨0, 0, 1, 1, "world"⟩] : List Word),
        wordScore "worl" w' ≤ wordScore "worl" w) :=
  ⟨locator_spec.1 ⟨fun s => if s = "hello" then [⟨1, 2, 3, 4⟩] else [], [⟨0, 0, 1, 1, "world"⟩]⟩
      ["hello", "xyzzy"] "hello" ⟨1, 2, 3, 4⟩ [] (by decide) (by decide),
   locator_spec.2.1 ⟨fun s => if s = "hello" then [⟨1, 2, 3, 4⟩] else [], [⟨0, 0, 1, 1, "world"⟩]⟩
      ["hello", "xyzzy"] "xyzzy" (by decide) (by decide),
   locator_spec.2.2 ⟨fun s => if s = "hello" then [⟨1, 2, 3, 4⟩] else [], [⟨0, 0, 1, 1, "world"⟩]⟩
      "worl" (boxOfWord ⟨0, 0, 1, 1, "world"⟩) (by decide) rfl⟩

/-! ## Claim C10 -/

theorem asString_toList (cs : List Char) : (cs.asString).toList = cs := rfl

theorem redactionId_ne_empty (a b : ℕ) : redactionId a b ≠ "" := by
  intro hc
  have h2 := congrArg (fun s : String => s.toList.length) hc
  simp only [redactionId, asString_toList] at h2
  rw [List.length_append, List.length_append, List.length_append] at h2
  have h5 : (("page_").toList).length = 5 := rfl
  have h0 : (("").toList).length = 0 := rfl
  omega

theorem faceId_ne_empty (a b : ℕ) : faceId a b ≠ "" := by
  intro hc
  have h2 := congrArg (fun s : String => s.toList.length) hc
  simp only [faceId, asString_toList] at h2
  rw [List.length_append, List.length_append, List.length_append] at h2
  have h5 : (("page_").toList).length = 5 := rfl
  have h0 : (("").toList).length = 0 := rfl
  omega

/-- Claim C10: every candidate `process_page` emits — model-derived or
face-derived — has `accepted = false`, a non-empty id, and coordinates whose
page is the requested page number; the first block of the output is the
model-derived candidates in order, where candidate `i` gets the locator box
when its text is placed and otherwise the deterministic fallback box
`x = 100 + 50·i`, `y = 100 + 30·i`, `width = max(100, 8·len(text))`,
`height = 20`; the remaining candidates are the face candidates, all with
text `DETECTED_FACE` and the (shared) face id built from the model-candidate
count. -/
theorem process_page_invariants (pageText : String) (modelResponse : Option String)
    (page : PageData) (images : List PdfImage) (pageNumber : ℕ) (profile : String)
    (cands : List Candidate)
    (h : processPage pageText modelResponse page images pageNumber profile = some cands) :
    (∀ cand ∈ cands, cand.accepted = false ∧ cand.id ≠ "" ∧
      cand.coordinates.page = (pageNumber : ℤ)) ∧
    ∃ n, n ≤ cands.length ∧
      (∀ (i : ℕ) (cand : Candidate), i < n → cands[i]? = some cand →
        cand.id = redactionId pageNumber i ∧
        (locateText page cand.text = none →
          cand.coordinates = fallbackCoords pageNumber i cand.text) ∧
        (∀ b : FoundBox, locateText page cand.text = some b →
          cand.coordinates =
            ⟨(pageNumber : ℤ), b.x, b.y, b.width, b.height⟩)) ∧
      (∀ (i : ℕ) (cand : Candidate), n ≤ i → cands[i]? = some cand →
        cand.text = "DETECTED_FACE" ∧ cand.id = faceId pageNumber n) := by
  rw [processPage.eq_def] at h
  by_cases hstrip : pyStrip pageText.toList = []
  · rw [if_pos hstrip] at h
    obtain rfl : cands = [] := by simpa using h.symm
    refine ⟨by simp, 0, by simp, by simp, ?_⟩
    intro i cand _ hc
    rw [List.getElem?_nil] at hc
    cases hc
  · rw [if_neg hstrip] at h
    rcases modelResponse with - | resp
    · obtain rfl : cands = [] := by simpa using h.symm
      refine ⟨by simp, 0, by simp, by simp, ?_⟩
      intro i cand _ hc
      rw [List.getElem?_nil] at hc
      cases hc
    · dsimp only at h
      rcases hp : parseModelResponse resp.toList with - | b | nn | s | items | fs <;> rw [hp] at h
      · cases h
      · cases h
      · cases h
      · cases h
      · dsimp only at h
        rcases hm : items.mapM itemTextCategory with - | parsed <;> rw [hm] at h
        · cases h
        simp only [Option.bind_eq_bind, Option.some_bind, Option.pure_def] at h
        obtain rfl : cands =
            parsed.mapIdx (fun i p => mkModelCandidate page pageNumber i p.1 p.2) ++
              (if profile = "deep" then
                (detectFaces images).map (mkFaceCandidate pageNumber
                  (parsed.mapIdx (fun i p => mkModelCandidate page pageNumber i p.1 p.2)).length)
              else []) := by
          exact ((Option.some.injEq _ _).mp h).symm
        have hfact : ∀ (i : ℕ) (p : List (String × Json) × String),
            (mkModelCandidate page pageNumber i p.1 p.2).accepted = false ∧
            (mkModelCandidate page pageNumber i p.1 p.2).id = redactionId pageNumber i ∧
            (mkModelCandidate page pageNumber i p.1 p.2).coordinates.page = (pageNumber : ℤ) := by
          intro i p
          refine ⟨rfl, rfl, ?_⟩
          rw [mkModelCandidate]
          rcases hl : locateText page p.2 with - | bx
          · rfl
          · rfl
        refine ⟨?_, (parsed.mapIdx (fun i p => mkModelCandidate page pageNumber i p.1 p.2)).length,
          by simp, ?_, ?_⟩
        · intro cand hmem
          rcases List.mem_append.mp hmem with hmem | hmem
          · obtain ⟨i, hi⟩ := List.mem_iff_getElem?.mp hmem
            rw [List.getElem?_mapIdx] at hi
            rcases hpi : parsed[i]? with - | p <;> rw [hpi] at hi
            · cases hi
            · obtain rfl : cand = mkModelCandidate page pageNumber i p.1 p.2 := by
                simpa using hi.symm
              obtain ⟨h1, h2, h3⟩ := hfact i p
              exact ⟨h1, h2 ▸ redactionId_ne_empty pageNumber i, h3⟩
          · by_cases hprof : profile = "deep"
            · rw [if_pos hprof] at hmem
              obtain ⟨img, -, rfl⟩ := List.mem_map.mp hmem
              exact ⟨rfl, faceId_ne_empty pageNumber _, rfl⟩
            · rw [if_neg hprof] at hmem
              cases hmem
        · intro i cand hi hc
          rw [List.getElem?_append_left hi] at hc
          rw [List.getElem?_mapIdx] at hc
          rcases hpi : parsed[i]? with - | p <;> rw [hpi] at hc
          · cases hc
          obtain rfl : cand = mkModelCandidate page pageNumber i p.1 p.2 := by
            simpa using hc.symm
          refine ⟨rfl, ?_, ?_⟩
          · intro hnone
            have hnone' : locateText page p.2 = none := hnone
            show (mkModelCandidate page pageNumber i p.1 p.2).coordinates = _
            rw [mkModelCandidate]
            dsimp only
            rw [hnone']
          · intro b hsome
            have hsome' : locateText page p.2 = some b := hsome
            show (mkModelCandidate page pageNumber i p.1 p.2).coordinates = _
            rw [mkModelCandidate]
            dsimp only
            rw [hsome']
        · intro i cand hi hc
          rw [List.getElem?_append_right hi] at hc
          by_cases hprof : profile = "deep"
          · rw [if_pos hprof] at hc
            rw [List.getElem?_map] at hc
            rcases hgi : (detectFaces images)[i -
                (parsed.mapIdx (fun i p => mkModelCandidate page pageNumber i p.1 p.2)).length]?
              with - | img <;> rw [hgi] at hc
            · cases hc
            obtain rfl : cand = mkFaceCandidate pageNumber
                (parsed.mapIdx (fun i p => mkModelCandidate page pageNumber i p.1 p.2)).length
                img := by
              simpa using hc.symm
            exact ⟨rfl, rfl⟩
          · rw [if_neg hprof] at hc
            rw [List.getElem?_nil] at hc
            cases hc
      · cases h

/-- Witness for `process_page_invariants`: a fenced two-item model reply on
page 3, deep profile, one locatable text (`"hello"`), one unlocatable
(`"zzz"`), and one large image producing a face candidate. -/
theorem process_page_invariants_witness :
    (∀ cand ∈ [mkModelCandidate
        ⟨fun s => if s = "hello" then [⟨1, 2, 3, 4⟩] else [], [⟨0, 0, 1, 1, "world"⟩]⟩ 3 0
        [("text", .str ("hello")), ("category", .str ("PII"))] "hello",
      mkModelCandidate
        ⟨fun s => if s = "hello" then [⟨1, 2, 3, 4⟩] else [], [⟨0, 0, 1, 1, "world"⟩]⟩ 3 1
        [("text", .str ("zzz")), ("category", .str ("PII"))] "zzz",
      mkFaceCandidate 3 2 ⟨20000, ⟨0, 0, 2, 2⟩⟩],
      cand.accepted = false ∧ cand.id ≠ "" ∧ cand.coordinates.page = ((3 : ℕ) : ℤ)) ∧
    ∃ n, n ≤ ([mkModelCandidate
        ⟨fun s => if s = "hello" then [⟨1, 2, 3, 4⟩] else [], [⟨0, 0, 1, 1, "world"⟩]⟩ 3 0
        [("text", .str ("hello")), ("category", .str ("PII"))] "hello",
      mkModelCandidate
        ⟨fun s => if s = "hello" then [⟨1, 2, 3, 4⟩] else [], [⟨0, 0, 1, 1, "world"⟩]⟩ 3 1
        [("text", .str ("zzz")), ("category", .str ("PII"))] "zzz",
      mkFaceCandidate 3 2 ⟨20000, ⟨0, 0, 2, 2⟩⟩] : List Candidate).length ∧
      (∀ (i : ℕ) (cand : Candidate), i < n →
        ([mkModelCandidate
            ⟨fun s => if s = "hello" then [⟨1, 2, 3, 4⟩] else [], [⟨0, 0, 1, 1, "world"⟩]⟩ 3 0
            [("text", .str ("hello")), ("category", .str ("PII"))] "hello",
          mkModelCandidate
            ⟨fun s => if s = "hello" then [⟨1, 2, 3, 4⟩] else [], [⟨0, 0, 1, 1, "world"⟩]⟩ 3 1
            [("text", .str ("zzz")), ("category", .str ("PII"))] "zzz",
          mkFaceCandidate 3 2 ⟨20000, ⟨0, 0, 2, 2⟩⟩] : List Candidate)[i]? = some cand →
        cand.id = redactionId 3 i ∧
        (locateText ⟨fun s => if s = "hello" then [⟨1, 2, 3, 4⟩] else [],
            [⟨0, 0, 1, 1, "world"⟩]⟩ cand.text = none →
          cand.coordinates = fallbackCoords 3 i cand.text) ∧
        (∀ b : FoundBox, locateText ⟨fun s => if s = "hello" then [⟨1, 2, 3, 4⟩] else [],
            [⟨0, 0, 1, 1, "world"⟩]⟩ cand.text = some b →
          cand.coordinates = ⟨((3 : ℕ) : ℤ), b.x, b.y, b.width, b.height⟩)) ∧
      (∀ (i : ℕ) (cand : Candidate), n ≤ i →
        ([mkModelCandidate
            ⟨fun s => if s = "hello" then [⟨1, 2, 3, 4⟩] else [], [⟨0, 0, 1, 1, "world"⟩]⟩ 3 0
            [("text", .str ("hello")), ("category", .str ("PII"))] "hello",
          mkModelCandidate
            ⟨fun s => if s = "hello" then [⟨1, 2, 3, 4⟩] else [], [⟨0, 0, 1, 1, "world"⟩]⟩ 3 1
            [("text", .str ("zzz")), ("category", .str ("PII"))] "zzz",
          mkFaceCandidate 3 2 ⟨20000, ⟨0, 0, 2, 2⟩⟩] : List Candidate)[i]? = some cand →
        cand.text = "DETECTED_FACE" ∧ cand.id = faceId 3 n) :=
  process_page_invariants "hello page"
    (some ("```json\n[\x7b\"text\":\"hello\",\"category\":\"PII\"\x7d,\x7b\"text\":\"zzz\",\"category\":\"PII\"\x7d]\n```"))
    ⟨fun s => if s = "hello" then [⟨1, 2, 3, 4⟩] else [], [⟨0, 0, 1, 1, "world"⟩]⟩
    [⟨20000, ⟨0, 0, 2, 2⟩⟩] 3 "deep"
    [mkModelCandidate
        ⟨fun s => if s = "hello" then [⟨1, 2, 3, 4⟩] else [], [⟨0, 0, 1, 1, "world"⟩]⟩ 3 0
        [("text", .str ("hello")), ("category", .str ("PII"))] "hello",
      mkModelCandidate
        ⟨fun s => if s = "hello" then [⟨1, 2, 3, 4⟩] else [], [⟨0, 0, 1, 1, "world"⟩]⟩ 3 1
        [("text", .str ("zzz")), ("category", .str ("PII"))] "zzz",
      mkFaceCandidate 3 2 ⟨20000, ⟨0, 0, 2, 2⟩⟩]
    rfl

/-! ## Claim C6 — helper lemmas for the serializer/parser round trip -/

theorem toList_asString (s : String) : (s.toList).asString = s := rfl

theorem skipWs_cons (c : Char) (l : List Char)
    (h : ¬(c = ' ' ∨ c = '\t' ∨ c = '\n' ∨ c = '\r')) :
    skipWs (c :: l) = c :: l := by
  simp only [skipWs]
  rw [List.dropWhile_cons, if_neg (by simpa using h)]

theorem digitChar_spec : ∀ d : ℕ, d < 10 →
    (Nat.digitChar d).isDigit = true ∧ (Nat.digitChar d).toNat - ('0').toNat = d := by
  intro d hd
  interval_cases d <;> exact ⟨by decide, by decide⟩

theorem digitsVal_append_singleton (ds : List Char) (c : Char) :
    digitsVal (ds ++ [c]) = digitsVal ds * 10 + (c.toNat - ('0').toNat) := by
  simp only [digitsVal, List.foldl_append]
  rfl

theorem natToDigitsAux_spec : ∀ (fuel n : ℕ), n < fuel →
    natToDigitsAux fuel n ≠ [] ∧ (∀ c ∈ natToDigitsAux fuel n, c.isDigit = true) ∧
      digitsVal (natToDigitsAux fuel n) = n
  | 0, n, h => absurd h (by omega)
  | fuel + 1, n, h => by
    rw [natToDigitsAux]
    by_cases h10 : n < 10
    · rw [if_pos h10]
      obtain ⟨hd, hv⟩ := digitChar_spec n h10
      refine ⟨by simp, by simpa using hd, ?_⟩
      simp only [digitsVal, List.foldl_cons, List.foldl_nil]
      omega
    · rw [if_neg h10]
      have hrec : n / 10 < fuel := by omega
      obtain ⟨hne, hdig, hval⟩ := natToDigitsAux_spec fuel (n / 10) hrec
      obtain ⟨hd, hv⟩ := digitChar_spec (n % 10) (Nat.mod_lt n (by omega))
      refine ⟨by simp, ?_, ?_⟩
      · intro c hc
        rcases List.mem_append.mp hc with hc | hc
        · exact hdig c hc
        · rw [List.mem_singleton.mp hc]
          exact hd
      · rw [digitsVal_append_singleton, hval, hv]
        omega

theorem natToDigits_spec (n : ℕ) : natToDigits n ≠ [] ∧
    (∀ c ∈ natToDigits n, c.isDigit = true) ∧ digitsVal (natToDigits n) = n :=
  natToDigitsAux_spec (n + 1) n (by omega)

theorem isDigit_facts (c : Char) (h : c.isDigit = true) :
    ¬(c = ' ' ∨ c = '\t' ∨ c = '\n' ∨ c = '\r') ∧
      c ≠ '"' ∧ c ≠ '[' ∧ c ≠ '\x7b' ∧ c ≠ '-' ∧ c ≠ ']' ∧ c ≠ ',' ∧
      c ≠ '\x7d' ∧ c ≠ ':' := by
  refine ⟨?_, ?_, ?_, ?_, ?_, ?_, ?_, ?_, ?_⟩
  · rintro (rfl | rfl | rfl | rfl) <;> exact absurd h (by decide)
  all_goals rintro rfl
  all_goals exact absurd h (by decide)

/-- Head shape of any serialization: non-empty, head not whitespace and
none of the closing delimiter characters. -/
theorem serializeJson_head (J : Json) :
    ∃ c cs, serializeJson J = c :: cs ∧
      ¬(c = ' ' ∨ c = '\t' ∨ c = '\n' ∨ c = '\r') ∧
      c ≠ ']' ∧ c ≠ ',' ∧ c ≠ '\x7d' ∧ c ≠ ':' := by
  cases J with
  | null => exact ⟨'n', _, rfl, by decide, by decide, by decide, by decide, by decide⟩
  | bool b =>
    cases b with
    | true => exact ⟨'t', _, rfl, by decide, by decide, by decide, by decide, by decide⟩
    | false => exact ⟨'f', _, rfl, by decide, by decide, by decide, by decide, by decide⟩
  | int n =>
    rw [show serializeJson (.int n) = intToChars n from rfl, intToChars]
    by_cases hn : n < 0
    · rw [if_pos hn]
      exact ⟨'-', _, rfl, by decide, by decide, by decide, by decide, by decide⟩
    · rw [if_neg hn]
      obtain ⟨hne, hdig, -⟩ := natToDigits_spec n.toNat
      rcases hds : natToDigits n.toNat with - | ⟨c, cs⟩
      · exact absurd hds hne
      · have hd : c.isDigit = true := hdig c (hds ▸ List.mem_cons_self c cs)
        obtain ⟨f1, -, -, -, -, f6, f7, f8, f9⟩ := isDigit_facts c hd
        exact ⟨c, cs, rfl, f1, f6, f7, f8, f9⟩
  | str s => exact ⟨'"', _, rfl, by decide, by decide, by decide, by decide, by decide⟩
  | arr xs => exact ⟨'[', _, rfl, by decide, by decide, by decide, by decide, by decide⟩
  | obj fs => exact ⟨'\x7b', _, rfl, by decide, by decide, by decide, by decide, by decide⟩

theorem serializeJson_ne_nil (J : Json) : serializeJson J ≠ [] := by
  obtain ⟨c, cs, heq, -⟩ := serializeJson_head J
  rw [heq]
  simp

theorem parseStringBody_cons (c : Char) (cs : List Char)
    (hq : c ≠ '"') (hb : c ≠ '\\') :
    parseStringBody (c :: cs) = (parseStringBody cs).map (fun p => (c :: p.1, p.2)) := by
  rw [parseStringBody.eq_def]
  split
  · next heq => cases heq
  · next r heq =>
    rw [List.cons.injEq] at heq
    exact absurd heq.1 hq
  · next c2 r heq =>
    rw [List.cons.injEq] at heq
    exact absurd heq.1 hb
  · next x c2 r2 h1 h2 heq =>
    rw [List.cons.injEq] at heq
    obtain ⟨rfl, rfl⟩ := heq
    rfl

theorem parseStringBody_plain :
    ∀ (content : List Char), (∀ c ∈ content, plainChar c = true) →
      ∀ rest, parseStringBody (content ++ '"' :: rest) = some (content, rest)
  | [], _, rest => rfl
  | c :: cs, hplain, rest => by
    have hc := hplain c (List.mem_cons_self c cs)
    have hq : c ≠ '"' := by
      intro hh
      rw [hh] at hc
      cases hc
    have hb : c ≠ '\\' := by
      intro hh
      rw [hh] at hc
      cases hc
    have htail := parseStringBody_plain cs (fun x hx => hplain x (List.mem_cons_of_mem c hx)) rest
    rw [List.cons_append, parseStringBody_cons c _ hq hb, htail]
    rfl


theorem head_notDigit (c : Char) (l : List Char) (hc : c.isDigit = false) :
    ∀ c0, (c :: l).head? = some c0 → c0.isDigit = false := by
  intro c0 h0
  rw [List.head?_cons, Option.some.injEq] at h0
  rw [← h0]
  exact hc

theorem takeWhile_append_all (p : Char → Bool) :
    ∀ (ds : List Char), (∀ c ∈ ds, p c = true) →
      ∀ (rest : List Char), (∀ c, rest.head? = some c → p c = false) →
        (ds ++ rest).takeWhile p = ds ∧ (ds ++ rest).dropWhile p = rest
  | [], _, rest, h2 => by
    constructor
    · cases rest with
      | nil => rfl
      | cons r rs =>
        rw [List.nil_append, List.takeWhile_cons, if_neg (by simp [h2 r rfl])]
    · cases rest with
      | nil => rfl
      | cons r rs =>
        rw [List.nil_append, List.dropWhile_cons, if_neg (by simp [h2 r rfl])]
  | d :: ds, h1, rest, h2 => by
    have hd : p d = true := h1 d (List.mem_cons_self d ds)
    obtain ⟨ht, hdr⟩ :=
      takeWhile_append_all p ds (fun c hc => h1 c (List.mem_cons_of_mem d hc)) rest h2
    constructor
    · rw [List.cons_append, List.takeWhile_cons, if_pos hd, ht]
    · rw [List.cons_append, List.dropWhile_cons, if_pos hd, hdr]

theorem parseJsonValue_cons (F : ℕ) (c : Char) (W : List Char)
    (h1 : ¬(c = ' ' ∨ c = '\t' ∨ c = '\n' ∨ c = '\r')) :
    parseJsonValue (F + 1) (c :: W) =
      (if c = '"' then
        (parseStringBody W).map (fun p => (.str p.1.asString, p.2))
      else if c = '[' then
        (parseJsonElems F W).map (fun p => (.arr p.1, p.2))
      else if c = '\x7b' then
        (parseJsonMembers F W).map (fun p => (.obj p.1, p.2))
      else if c = '-' then
        match W.takeWhile Char.isDigit with
        | [] => none
        | ds => some (.int (-(digitsVal ds : ℤ)), W.dropWhile Char.isDigit)
      else if c.isDigit then
        some (.int (digitsVal ((c :: W).takeWhile Char.isDigit) : ℤ),
          (c :: W).dropWhile Char.isDigit)
      else if startsWithSeq (("true").toList) (c :: W) then
        some (.bool true, (c :: W).drop 4)
      else if startsWithSeq (("false").toList) (c :: W) then
        some (.bool false, (c :: W).drop 5)
      else if startsWithSeq (("null").toList) (c :: W) then
        some (.null, (c :: W).drop 4)
      else
        none) := by
  rw [parseJsonValue, skipWs_cons c W h1]

theorem parseJsonElems_cons (F : ℕ) (c : Char) (W : List Char)
    (h1 : ¬(c = ' ' ∨ c = '\t' ∨ c = '\n' ∨ c = '\r')) :
    parseJsonElems (F + 1) (c :: W) =
      (if c = ']' then some ([], W)
       else
         match parseJsonValue F (c :: W) with
         | some (v, r) =>
           (match skipWs r with
            | ',' :: r2 => (parseJsonElemsMore F r2).map (fun p => (v :: p.1, p.2))
            | ']' :: r2 => some ([v], r2)
            | _ => none)
         | none => none) := by
  rw [parseJsonElems, skipWs_cons c W h1]

theorem parseJsonMemberList_step (F : ℕ) (content r2 : List Char)
    (hplain : ∀ c ∈ content, plainChar c = true) :
    parseJsonMemberList (F + 1) (content ++ '"' :: ':' :: r2) =
      (match parseJsonValue F r2 with
       | some (v, r3) =>
         (match skipWs r3 with
          | ',' :: r4 =>
            (match skipWs r4 with
             | '"' :: r5 =>
               (parseJsonMemberList F r5).map
                 (fun p => ((content.asString, v) :: p.1, p.2))
             | _ => none)
          | '\x7d' :: r4 => some ([(content.asString, v)], r4)
          | _ => none)
       | none => none) := by
  rw [parseJsonMemberList, parseStringBody_plain content hplain (':' :: r2)]
  rfl

/-- The fuel-indexed parser inverts the compact serializer on plain values:
value, array-tail, more-elements, object-tail and member-list forms, proved
simultaneously by induction on the fuel. -/
theorem parse_serialize : ∀ fuel : ℕ,
    (∀ (J : Json) (rest : List Char), jsonPlain J = true →
        (serializeJson J).length < fuel →
        (∀ c0, rest.head? = some c0 → c0.isDigit = false) →
        parseJsonValue fuel (serializeJson J ++ rest) = some (J, rest)) ∧
    (∀ (xs : List Json) (rest : List Char), jsonArrPlain xs = true →
        (serializeArr xs).length + 1 < fuel →
        parseJsonElems fuel (serializeArr xs ++ ']' :: rest) = some (xs, rest)) ∧
    (∀ (xs : List Json) (rest : List Char), jsonArrPlain xs = true → xs ≠ [] →
        (serializeArr xs).length + 1 < fuel →
        parseJsonElemsMore fuel (serializeArr xs ++ ']' :: rest) = some (xs, rest)) ∧
    (∀ (fs : List (String × Json)) (rest : List Char), jsonObjPlain fs = true →
        (serializeObj fs).length + 1 < fuel →
        parseJsonMembers fuel (serializeObj fs ++ '\x7d' :: rest) = some (fs, rest)) ∧
    (∀ (k : String) (v : Json) (fs : List (String × Json)) (rest K : List Char),
        jsonObjPlain ((k, v) :: fs) = true →
        (serializeObj ((k, v) :: fs)).length < fuel →
        serializeObj ((k, v) :: fs) = '"' :: K →
        parseJsonMemberList fuel (K ++ '\x7d' :: rest) = some ((k, v) :: fs, rest)) := by
  intro fuel
  induction fuel with
  | zero =>
    refine ⟨?_, ?_, ?_, ?_, ?_⟩
    · intro J rest _ hlen _
      exact absurd hlen (by omega)
    · intro xs rest _ hlen
      exact absurd hlen (by omega)
    · intro xs rest _ _ hlen
      exact absurd hlen (by omega)
    · intro fs rest _ hlen
      exact absurd hlen (by omega)
    · intro k v fs rest K _ hlen _
      exact absurd hlen (by omega)
  | succ F IH =>
    obtain ⟨IHV, IHE, IHM, IHO, IHL⟩ := IH
    refine ⟨?_, ?_, ?_, ?_, ?_⟩
    · -- parseJsonValue
      intro J rest hplain hlen hrest
      cases J with
      | null =>
        exact rfl
      | bool b =>
        cases b with
        | true => exact rfl
        | false => exact rfl
      | str s =>
        have hp : ∀ c ∈ s.toList, plainChar c = true := by
          rw [show jsonPlain (.str s) = s.toList.all plainChar from rfl] at hplain
          exact fun c hc => List.all_eq_true.mp hplain c hc
        rw [show serializeJson (.str s) ++ rest = '"' :: (s.toList ++ '"' :: rest) by
          simp [serializeJson]]
        rw [show parseJsonValue (F + 1) ('"' :: (s.toList ++ '"' :: rest)) =
          (parseStringBody (s.toList ++ '"' :: rest)).map
            (fun p => (.str p.1.asString, p.2)) from rfl]
        rw [parseStringBody_plain s.toList hp rest]
        rfl
      | int n =>
        by_cases hn : n < 0
        · have hser : serializeJson (.int n) = '-' :: natToDigits n.natAbs := by
            rw [show serializeJson (.int n) = intToChars n from rfl, intToChars, if_pos hn]
          obtain ⟨hne, hdig, hval⟩ := natToDigits_spec n.natAbs
          obtain ⟨ht, hdr⟩ := takeWhile_append_all Char.isDigit
            (natToDigits n.natAbs) hdig rest hrest
          rw [hser, List.cons_append]
          rw [show parseJsonValue (F + 1) ('-' :: (natToDigits n.natAbs ++ rest)) =
            (match (natToDigits n.natAbs ++ rest).takeWhile Char.isDigit with
             | [] => none
             | ds => some (.int (-(digitsVal ds : ℤ)),
                 (natToDigits n.natAbs ++ rest).dropWhile Char.isDigit)) from rfl]
          rw [ht, hdr]
          rcases hds : natToDigits n.natAbs with - | ⟨d, ds⟩
          · exact absurd hds hne
          dsimp only
          rw [← hds, hval]
          have hcast : (-(n.natAbs : ℤ)) = n := by omega
          rw [hcast]
        · have hser : serializeJson (.int n) = natToDigits n.toNat := by
            rw [show serializeJson (.int n) = intToChars n from rfl, intToChars, if_neg hn]
          obtain ⟨hne, hdig, hval⟩ := natToDigits_spec n.toNat
          obtain ⟨ht, hdr⟩ := takeWhile_append_all Char.isDigit
            (natToDigits n.toNat) hdig rest hrest
          rcases hds : natToDigits n.toNat with - | ⟨d, ds⟩
          · exact absurd hds hne
          have hd : d.isDigit = true := hdig d (hds ▸ List.mem_cons_self d ds)
          obtain ⟨f1, f2, f3, f4, f5, -, -, -, -⟩ := isDigit_facts d hd
          have hshape : serializeJson (.int n) ++ rest = d :: (ds ++ rest) := by
            rw [hser, hds, List.cons_append]
          rw [hshape, parseJsonValue_cons F d (ds ++ rest) f1,
            if_neg f2, if_neg f3, if_neg f4, if_neg f5, if_pos hd]
          rw [← List.cons_append, ← hds, ht, hdr, hval]
          have hcast : ((n.toNat : ℤ)) = n := Int.toNat_of_nonneg (by omega)
          rw [hcast]
      | arr xs =>
        have hlen2 : (serializeArr xs).length + 1 < F := by
          have : (serializeJson (.arr xs)).length = (serializeArr xs).length + 2 := by
            simp [serializeJson]
          omega
        have hp : jsonArrPlain xs = true := by
          rw [show jsonPlain (.arr xs) = jsonArrPlain xs from rfl] at hplain
          exact hplain
        rw [show serializeJson (.arr xs) ++ rest = '[' :: (serializeArr xs ++ ']' :: rest) by
          simp [serializeJson]]
        rw [show parseJsonValue (F + 1) ('[' :: (serializeArr xs ++ ']' :: rest)) =
          (parseJsonElems F (serializeArr xs ++ ']' :: rest)).map
            (fun p => (.arr p.1, p.2)) from rfl]
        rw [IHE xs rest hp hlen2]
        rfl
      | obj fs =>
        have hlen2 : (serializeObj fs).length + 1 < F := by
          have : (serializeJson (.obj fs)).length = (serializeObj fs).length + 2 := by
            simp [serializeJson]
          omega
        have hp : jsonObjPlain fs = true := by
          rw [show jsonPlain (.obj fs) = jsonObjPlain fs from rfl] at hplain
          exact hplain
        rw [show serializeJson (.obj fs) ++ rest =
          '\x7b' :: (serializeObj fs ++ '\x7d' :: rest) by simp [serializeJson]]
        rw [show parseJsonValue (F + 1) ('\x7b' :: (serializeObj fs ++ '\x7d' :: rest)) =
          (parseJsonMembers F (serializeObj fs ++ '\x7d' :: rest)).map
            (fun p => (.obj p.1, p.2)) from rfl]
        rw [IHO fs rest hp hlen2]
        rfl
    · -- parseJsonElems
      intro xs rest hplain hlen
      cases xs with
      | nil => exact rfl
      | cons x xs' =>
        rw [show jsonArrPlain (x :: xs') = (jsonPlain x && jsonArrPlain xs') from rfl,
          Bool.and_eq_true] at hplain
        obtain ⟨hpx, hpxs⟩ := hplain
        obtain ⟨c, cs, hx, f1, f2, f3, f4, f5⟩ := serializeJson_head x
        have hsx1 : (serializeJson x).length = cs.length + 1 := by
          rw [hx]
          simp
        cases xs' with
        | nil =>
          have hlenx : (serializeJson x).length < F := by
            have he : (serializeArr [x]).length = (serializeJson x).length := rfl
            omega
          rw [show serializeArr [x] = serializeJson x from rfl, hx, List.cons_append,
            parseJsonElems_cons F c (cs ++ ']' :: rest) f1, if_neg f2,
            ← List.cons_append, ← hx,
            IHV x (']' :: rest) hpx hlenx (head_notDigit ']' rest (by decide))]
          rfl
        | cons y ys =>
          have hser : serializeArr (x :: y :: ys) =
              serializeJson x ++ ',' :: serializeArr (y :: ys) := rfl
          have hlens : (serializeArr (x :: y :: ys)).length =
              (serializeJson x).length + 1 + (serializeArr (y :: ys)).length := by
            rw [hser]
            simp
            omega
          have hlenx : (serializeJson x).length < F := by omega
          have hlenys : (serializeArr (y :: ys)).length + 1 < F := by omega
          rw [hser, List.append_assoc, List.cons_append, hx, List.cons_append,
            parseJsonElems_cons F c _ f1, if_neg f2, ← List.cons_append, ← hx,
            IHV x (',' :: (serializeArr (y :: ys) ++ ']' :: rest)) hpx hlenx
              (head_notDigit ',' _ (by decide))]
          show (parseJsonElemsMore F (serializeArr (y :: ys) ++ ']' :: rest)).map
              (fun p => (x :: p.1, p.2)) = some (x :: y :: ys, rest)
          rw [IHM (y :: ys) rest hpxs (by simp) hlenys]
          rfl
    · -- parseJsonElemsMore
      intro xs rest hplain hne hlen
      cases xs with
      | nil => exact absurd rfl hne
      | cons x xs' =>
        rw [show jsonArrPlain (x :: xs') = (jsonPlain x && jsonArrPlain xs') from rfl,
          Bool.and_eq_true] at hplain
        obtain ⟨hpx, hpxs⟩ := hplain
        obtain ⟨c, cs, hx, f1, f2, f3, f4, f5⟩ := serializeJson_head x
        have hsx1 : (serializeJson x).length = cs.length + 1 := by
          rw [hx]
          simp
        cases xs' with
        | nil =>
          have hlenx : (serializeJson x).length < F := by
            have he : (serializeArr [x]).length = (serializeJson x).length := rfl
            omega
          rw [show serializeArr [x] = serializeJson x from rfl, parseJsonElemsMore,
            IHV x (']' :: rest) hpx hlenx (head_notDigit ']' rest (by decide))]
          rfl
        | cons y ys =>
          have hser : serializeArr (x :: y :: ys) =
              serializeJson x ++ ',' :: serializeArr (y :: ys) := rfl
          have hlens : (serializeArr (x :: y :: ys)).length =
              (serializeJson x).length + 1 + (serializeArr (y :: ys)).length := by
            rw [hser]
            simp
            omega
          have hlenx : (serializeJson x).length < F := by omega
          have hlenys : (serializeArr (y :: ys)).length + 1 < F := by omega
          rw [hser, List.append_assoc, List.cons_append, parseJsonElemsMore,
            IHV x (',' :: (serializeArr (y :: ys) ++ ']' :: rest)) hpx hlenx
              (head_notDigit ',' _ (by decide))]
          show (parseJsonElemsMore F (serializeArr (y :: ys) ++ ']' :: rest)).map
              (fun p => (x :: p.1, p.2)) = some (x :: y :: ys, rest)
          rw [IHM (y :: ys) rest hpxs (by simp) hlenys]
          rfl
    · -- parseJsonMembers
      intro fs rest hplain hlen
      cases fs with
      | nil => exact rfl
      | cons kv fs' =>
        obtain ⟨k, v⟩ := kv
        obtain ⟨K, hK⟩ : ∃ K, serializeObj ((k, v) :: fs') = '"' :: K := by
          cases fs' with
          | nil => exact ⟨_, rfl⟩
          | cons f2 fs2 => exact ⟨_, rfl⟩
        rw [hK, List.cons_append,
          show parseJsonMembers (F + 1) ('"' :: (K ++ '\x7d' :: rest)) =
            parseJsonMemberList F (K ++ '\x7d' :: rest) from rfl]
        exact IHL k v fs' rest K hplain (by omega) hK
    · -- parseJsonMemberList
      intro k v fs rest K hplain hlen hK
      rw [show jsonObjPlain ((k, v) :: fs) =
          (k.toList.all plainChar && jsonPlain v && jsonObjPlain fs) from rfl,
        Bool.and_eq_true, Bool.and_eq_true] at hplain
      obtain ⟨⟨hak, hpv⟩, hpfs⟩ := hplain
      have hpk : ∀ c ∈ k.toList, plainChar c = true :=
        fun c hc => List.all_eq_true.mp hak c hc
      cases fs with
      | nil =>
        have hform : serializeObj ((k, v) :: ([] : List (String × Json))) =
            '"' :: (k.toList ++ '"' :: ':' :: serializeJson v) := by
          rw [show serializeObj [(k, v)] =
            ('"' :: k.toList) ++ ('"' :: ':' :: serializeJson v) from rfl,
            List.cons_append]
        rw [hform] at hK
        rw [List.cons.injEq] at hK
        have hK' : K = k.toList ++ '"' :: ':' :: serializeJson v := hK.2.symm
        subst hK'
        have hlform : (serializeObj ((k, v) :: ([] : List (String × Json)))).length =
            k.toList.length + 3 + (serializeJson v).length := by
          rw [hform]
          simp
          omega
        have hlenv : (serializeJson v).length < F := by omega
        rw [List.append_assoc, List.cons_append, List.cons_append,
          parseJsonMemberList_step F k.toList (serializeJson v ++ '\x7d' :: rest) hpk,
          IHV v ('\x7d' :: rest) hpv hlenv (head_notDigit '\x7d' rest (by decide))]
        rfl
      | cons kv2 fs2 =>
        obtain ⟨k2, v2⟩ := kv2
        have hser2 : serializeObj ((k, v) :: (k2, v2) :: fs2) =
            (('"' :: k.toList) ++ ('"' :: ':' :: serializeJson v)) ++
              (',' :: serializeObj ((k2, v2) :: fs2)) := rfl
        have hform : serializeObj ((k, v) :: (k2, v2) :: fs2) =
            '"' :: (k.toList ++ '"' :: ':' ::
              (serializeJson v ++ ',' :: serializeObj ((k2, v2) :: fs2))) := by
          rw [hser2]
          simp
        rw [hform] at hK
        rw [List.cons.injEq] at hK
        have hK' : K = k.toList ++ '"' :: ':' ::
            (serializeJson v ++ ',' :: serializeObj ((k2, v2) :: fs2)) := hK.2.symm
        subst hK'
        have hlform : (serializeObj ((k, v) :: (k2, v2) :: fs2)).length =
            k.toList.length + 4 + (serializeJson v).length +
              (serializeObj ((k2, v2) :: fs2)).length := by
          rw [hform]
          simp
          omega
        have hlenv : (serializeJson v).length < F := by omega
        have hlen2 : (serializeObj ((k2, v2) :: fs2)).length < F := by omega
        obtain ⟨K2, hK2⟩ : ∃ K2, serializeObj ((k2, v2) :: fs2) = '"' :: K2 := by
          cases fs2 with
          | nil => exact ⟨_, rfl⟩
          | cons f3 fs3 => exact ⟨_, rfl⟩
        rw [List.append_assoc, List.cons_append, List.cons_append,
          List.append_assoc, List.cons_append,
          parseJsonMemberList_step F k.toList
            (serializeJson v ++ ',' :: (serializeObj ((k2, v2) :: fs2) ++ '\x7d' :: rest))
            hpk,
          IHV v (',' :: (serializeObj ((k2, v2) :: fs2) ++ '\x7d' :: rest)) hpv hlenv
            (head_notDigit ',' _ (by decide))]
        show (match skipWs (serializeObj ((k2, v2) :: fs2) ++ '\x7d' :: rest) with
          | '"' :: r5 => (parseJsonMemberList F r5).map
              (fun p => (((k.toList).asString, v) :: p.1, p.2))
          | _ => none) = some ((k, v) :: (k2, v2) :: fs2, rest)
        rw [hK2, List.cons_append, skipWs_cons '"' _ (by decide)]
        show (parseJsonMemberList F (K2 ++ '\x7d' :: rest)).map
            (fun p => (((k.toList).asString, v) :: p.1, p.2)) =
          some ((k, v) :: (k2, v2) :: fs2, rest)
        rw [IHL k2 v2 fs2 rest K2 hpfs hlen2 hK2]
        rfl


theorem jsonParse_serialize (J : Json) (hplain : jsonPlain J = true) :
    jsonParse (serializeJson J) = some J := by
  have hV := (parse_serialize ((serializeJson J).length + 1)).1 J [] hplain (by omega)
    (fun c0 h0 => by cases h0)
  rw [List.append_nil] at hV
  rw [jsonParse, hV]
  rfl

theorem pyReplaceAux_not_contains (pat repl : List Char) :
    ∀ (fuel : ℕ) (s : List Char), containsSeq pat s = false →
      pyReplaceAux pat repl fuel s = s
  | 0, s, _ => by cases s <;> rfl
  | fuel + 1, [], _ => rfl
  | fuel + 1, c :: cs, h => by
    have h0 : startsWithSeq pat (c :: cs) = false := by
      rw [containsSeq, List.any_eq_false] at h
      have := h 0 (by rw [List.mem_range]; omega)
      rw [List.drop_zero] at this
      simpa using this
    have h1 : containsSeq pat cs = false := by
      rw [containsSeq, List.any_eq_false] at h ⊢
      intro i hi
      rw [List.mem_range] at hi
      have hmem : i + 1 ∈ List.range ((c :: cs).length + 1) := by
        rw [List.mem_range, List.length_cons]
        omega
      have := h (i + 1) hmem
      rw [List.drop_succ_cons] at this
      exact this
    rw [pyReplaceAux, if_neg (by simp [h0]), pyReplaceAux_not_contains pat repl fuel cs h1]

theorem pyReplace_not_contains (pat repl s : List Char)
    (h : containsSeq pat s = false) : pyReplace pat repl s = s :=
  pyReplaceAux_not_contains pat repl s.length s h

theorem pyStrip_wrap (M : List Char) :
    pyStrip ('`' :: (M ++ ['`'])) = '`' :: (M ++ ['`']) := by
  simp only [pyStrip]
  have h1 : ('`' :: (M ++ ['`'])).dropWhile Char.isWhitespace = '`' :: (M ++ ['`']) := by
    rw [List.dropWhile_cons, if_neg (by decide)]
  rw [h1]
  have hrev : ('`' :: (M ++ ['`'])).reverse = '`' :: (M.reverse ++ ['`']) := by simp
  rw [hrev]
  have h2 : ('`' :: (M.reverse ++ ['`'])).dropWhile Char.isWhitespace =
      '`' :: (M.reverse ++ ['`']) := by
    rw [List.dropWhile_cons, if_neg (by decide)]
  rw [h2, ← hrev, List.reverse_reverse]

/-- Evaluating `parse_model_response` on a fenced BACKTICKS json reply whose
payload is a bracketed JSON text: the fence is stripped, the text between the
first `[` and last `]` is exactly the payload, and the five repairs then run
on the payload alone. -/
theorem parseModelResponse_fenced (S M : List Char) (hS : S = '[' :: (M ++ [']'])) :
    parseModelResponse ((("```json\n").toList) ++ S ++ (("\n```").toList)) =
      (match jsonParse
          (pyReplace (['\x7d'] ++ (("\n  ").toList) ++ ['\x7b'])
            (['\x7d', ','] ++ (("\n  ").toList) ++ ['\x7b'])
            (pyReplace ([','] ++ ['\x7d']) (['\x7d'])
              (pyReplace ((",]").toList) (("]").toList)
                (pyReplace ((",\n]").toList) (("\n]").toList)
                  (pyReplace (((",\n").toList) ++ ['\x7d']) ((("\n").toList) ++ ['\x7d'])
                    S))))) with
       | some v => v
       | none => Json.arr []) := by
  have hstrip : pyStrip ((("```json\n").toList) ++ S ++ (("\n```").toList)) =
      (("```json\n").toList) ++ S ++ (("\n```").toList) := by
    have hsplit : (("```json\n").toList) ++ S ++ (("\n```").toList) =
        '`' :: (('`' :: '`' :: 'j' :: 's' :: 'o' :: 'n' :: '\n' ::
          (S ++ ('\n' :: '`' :: '`' :: []))) ++ ['`']) := by
      simp
    rw [hsplit, pyStrip_wrap]
  have ht1 : startsWithSeq (("```json").toList)
      ((("```json\n").toList) ++ S ++ (("\n```").toList)) = true := rfl
  have hdrop7 : ((("```json\n").toList) ++ S ++ (("\n```").toList)).drop 7 =
      '\n' :: (S ++ ('\n' :: '`' :: '`' :: '`' :: [])) := rfl
  have ht2 : startsWithSeq (("```").toList)
      ('\n' :: (S ++ ('\n' :: '`' :: '`' :: '`' :: []))) = false := rfl
  have hrev1 : ('\n' :: (S ++ ('\n' :: '`' :: '`' :: '`' :: []))).reverse =
      '`' :: '`' :: '`' :: '\n' :: (S.reverse ++ ['\n']) := by simp
  have ht3 : endsWithSeq (("```").toList)
      ('\n' :: (S ++ ('\n' :: '`' :: '`' :: '`' :: []))) = true := by
    rw [endsWithSeq, hrev1]
    rfl
  have hlen1 : ('\n' :: (S ++ ('\n' :: '`' :: '`' :: '`' :: []))).length - 3 =
      S.length + 2 := by
    simp
  have htake : ('\n' :: (S ++ ('\n' :: '`' :: '`' :: '`' :: []))).take (S.length + 2) =
      '\n' :: (S ++ ['\n']) := by
    rw [show S.length + 2 = (S.length + 1) + 1 from rfl, List.take_succ_cons,
      List.take_append_eq_append_take, List.take_of_length_le (by omega)]
    have h11 : S.length + 1 - S.length = 1 := by omega
    rw [h11]
    rfl
  have hfind : pyFind '[' ('\n' :: (S ++ ['\n'])) = some 1 := by
    rw [hS]
    simp [pyFind, List.findIdx?_cons]
  have hrfind : pyRFind ']' ('\n' :: (S ++ ['\n'])) = some S.length := by
    rw [pyRFind]
    have hrev2 : ('\n' :: (S ++ ['\n'])).reverse =
        '\n' :: ']' :: (M.reverse ++ ('[' :: '\n' :: [])) := by
      rw [hS]
      simp
    rw [hrev2]
    have hidx : List.findIdx? (fun c => c = ']')
        ('\n' :: ']' :: (M.reverse ++ ('[' :: '\n' :: []))) = some 1 := by
      simp [List.findIdx?_cons]
    have hlen : ('\n' :: (S ++ ['\n'])).length - 1 - 1 = S.length := by
      simp
    rw [hidx]
    show some (('\n' :: (S ++ ['\n'])).length - 1 - 1) = some S.length
    rw [hlen]
  have hjt0 : (('\n' :: (S ++ ['\n'])).drop 1).take (S.length + 1 - 1) = S := by
    simp
  have hne2 : ¬(startsWithSeq (("```").toList)
      ('\n' :: (S ++ ('\n' :: '`' :: '`' :: '`' :: []))) = true) := by
    rw [ht2]
    simp
  rw [parseModelResponse]
  dsimp only
  rw [hstrip, if_pos ht1, hdrop7, if_neg hne2, if_pos ht3, hlen1, htake, hfind, hrfind]
  dsimp only
  rw [hjt0]


/-- C6, counterexample: the well-formed one-object array `[{"a":",]"}]`,
fenced and passed through the sanitizer, does not round-trip: the third
repair (`,]` to `]`) fires inside the string literal and the parsed array
differs from the original. -/
theorem sanitizer_roundtrip_counterexample :
    parseModelResponse ((("```json\n").toList) ++
        serializeJson (Json.arr [Json.obj [("a", Json.str (",]"))]]) ++
        (("\n```").toList)) =
      Json.arr [Json.obj [("a", Json.str ("]"))]] ∧
    Json.arr [Json.obj [("a", Json.str ("]"))]] ≠
      Json.arr [Json.obj [("a", Json.str (",]"))]] := by
  constructor
  · rfl
  · simp

/-- C6 (amended): a fenced serialized JSON array round-trips through
`parse_model_response` to an equal array provided none of the five literal
repair patterns occurs in the serialized text (and strings need no escapes);
without that proviso the claim is false, see the counterexample. -/
theorem sanitizer_roundtrip (xs : List Json)
    (hplain : jsonArrPlain xs = true)
    (h1 : containsSeq (((",\n").toList) ++ ['\x7d']) (serializeJson (Json.arr xs)) = false)
    (h2 : containsSeq ((",\n]").toList) (serializeJson (Json.arr xs)) = false)
    (h3 : containsSeq ((",]").toList) (serializeJson (Json.arr xs)) = false)
    (h4 : containsSeq ([','] ++ ['\x7d']) (serializeJson (Json.arr xs)) = false)
    (h5 : containsSeq (['\x7d'] ++ (("\n  ").toList) ++ ['\x7b'])
      (serializeJson (Json.arr xs)) = false) :
    parseModelResponse ((("```json\n").toList) ++ serializeJson (Json.arr xs) ++
      (("\n```").toList)) = Json.arr xs := by
  rw [parseModelResponse_fenced (serializeJson (Json.arr xs)) (serializeArr xs) rfl,
    pyReplace_not_contains _ _ _ h1, pyReplace_not_contains _ _ _ h2,
    pyReplace_not_contains _ _ _ h3, pyReplace_not_contains _ _ _ h4,
    pyReplace_not_contains _ _ _ h5,
    jsonParse_serialize (Json.arr xs) (show jsonPlain (Json.arr xs) = true from hplain)]

theorem sanitizer_roundtrip_witness :
    jsonArrPlain [Json.obj [("a", Json.int 1)], Json.obj [("b", Json.str ("x"))]] = true ∧
    parseModelResponse ((("```json\n").toList) ++
        serializeJson (Json.arr [Json.obj [("a", Json.int 1)],
          Json.obj [("b", Json.str ("x"))]]) ++
        (("\n```").toList)) =
      Json.arr [Json.obj [("a", Json.int 1)], Json.obj [("b", Json.str ("x"))]] :=
  ⟨rfl, sanitizer_roundtrip _ rfl rfl rfl rfl rfl rfl⟩

/-- C7, counterexample: two object literals separated by a bare newline and
no comma (`}` newline `{`, without the two-space indentation the repair
pattern hardcodes) are not repaired: the sanitizer returns the empty array,
not the claimed 2-element array. -/
theorem sanitizer_repair_counterexample :
    parseModelResponse ((("```json\n").toList) ++
      (("[\x7b\"a\":1\x7d\n\x7b\"b\":2\x7d]").toList) ++ (("\n```").toList)) =
      Json.arr [] ∧
    Json.arr [] ≠ Json.arr [Json.obj [("a", Json.int 1)], Json.obj [("b", Json.int 2)]] := by
  constructor
  · rfl
  · simp

/-- C7 (amended): the spec's literal two-object input parses to a 2-element
array because it already contains the comma; the adjacent-objects repair
fires only on `}` newline two-spaces `{`; and a trailing comma immediately
before `]` or before `}` is removed, as claimed. -/
theorem sanitizer_repair :
    parseModelResponse ((("```json\n").toList) ++
        (("[\x7b\"a\":1\x7d,\n\x7b\"b\":2\x7d]").toList) ++ (("\n```").toList)) =
      Json.arr [Json.obj [("a", Json.int 1)], Json.obj [("b", Json.int 2)]] ∧
    parseModelResponse ((("```json\n").toList) ++
        (("[\x7b\"a\":1\x7d\n  \x7b\"b\":2\x7d]").toList) ++ (("\n```").toList)) =
      Json.arr [Json.obj [("a", Json.int 1)], Json.obj [("b", Json.int 2)]] ∧
    parseModelResponse ((("```json\n").toList) ++
        (("[\x7b\"a\":1\x7d,]").toList) ++ (("\n```").toList)) =
      Json.arr [Json.obj [("a", Json.int 1)]] ∧
    parseModelResponse ((("```json\n").toList) ++
        (("[\x7b\"a\":1,\x7d]").toList) ++ (("\n```").toList)) =
      Json.arr [Json.obj [("a", Json.int 1)]] :=
  ⟨rfl, rfl, rfl, rfl⟩


/-! ## Claim C9 -/

/-- C9, counterexample: with the service down and no child processes, two
concurrent `start_ollama_service` invocations can interleave probe-probe-
spawn-spawn — there is no lock in the source — and reach a state with two
launched service processes. -/
theorem ollama_no_mutex_counterexample :
    Relation.ReflTransGen supStep2
      ((⟨false, 0⟩ : SupState), SupPC.start, SupPC.start)
      ((⟨false, 2⟩ : SupState), SupPC.polling, SupPC.polling) ∧
    ((⟨false, 2⟩ : SupState)).procCount = 2 := by
  constructor
  · have s1 : supStep2 ((⟨false, 0⟩ : SupState), SupPC.start, SupPC.start)
        ((⟨false, 0⟩ : SupState), SupPC.launching, SupPC.start) :=
      .left _ _ _ _ _ (.probeDown _ rfl)
    have s2 : supStep2 ((⟨false, 0⟩ : SupState), SupPC.launching, SupPC.start)
        ((⟨false, 0⟩ : SupState), SupPC.launching, SupPC.launching) :=
      .right _ _ _ _ _ (.probeDown _ rfl)
    have s3 : supStep2 ((⟨false, 0⟩ : SupState), SupPC.launching, SupPC.launching)
        ((⟨false, 1⟩ : SupState), SupPC.polling, SupPC.launching) :=
      .left _ _ _ _ _ (.spawn _)
    have s4 : supStep2 ((⟨false, 1⟩ : SupState), SupPC.polling, SupPC.launching)
        ((⟨false, 2⟩ : SupState), SupPC.polling, SupPC.polling) :=
      .right _ _ _ _ _ (.spawn _)
    exact Relation.ReflTransGen.tail
      (Relation.ReflTransGen.tail (Relation.ReflTransGen.tail
        (Relation.ReflTransGen.single s1) s2) s3) s4
  · rfl

/-- C9 (amended): a single `start_ollama_service` invocation launches at most
one child process, and none at all when the service already answers the
health probe when the invocation starts; the at-most-one-process guarantee
for two concurrent invocations is false (no mutual-exclusion guard exists in
the source rather the `threading` import is unused), see the counterexample. -/
theorem ollama_single_spawn (s s' : SupState) (pc' : SupPC)
    (h : Relation.ReflTransGen supStep (s, SupPC.start) (s', pc')) :
    s'.procCount ≤ s.procCount + 1 ∧
      (s.serviceUp = true → s'.procCount = s.procCount) := by
  have key : ∀ x : SupState × SupPC,
      Relation.ReflTransGen supStep (s, SupPC.start) x →
      x.1.procCount ≤ s.procCount + 1 ∧
        ((x.2 = SupPC.start ∨ x.2 = SupPC.launching) → x.1.procCount = s.procCount) ∧
        (s.serviceUp = true →
          x.1.serviceUp = true ∧ x.2 ≠ SupPC.launching ∧ x.2 ≠ SupPC.polling ∧
            x.1.procCount = s.procCount) := by
    intro x hx
    induction hx with
    | refl =>
      exact ⟨Nat.le_succ _, fun _ => rfl, fun hup => ⟨hup, by simp, by simp, rfl⟩⟩
    | tail hab hstep IH =>
      rcases hstep with ⟨s1, h1⟩ | ⟨s1, h1⟩ | s1 | ⟨s1, h1⟩ | s1 | ⟨s1, pc1, h1⟩
      · -- probeUp: start to done true, state unchanged
        exact ⟨IH.1, by simp, fun hup => ⟨(IH.2.2 hup).1, by simp, by simp,
          (IH.2.2 hup).2.2.2⟩⟩
      · -- probeDown: start to launching, state unchanged
        refine ⟨IH.1, fun _ => IH.2.1 (Or.inl rfl), fun hup => ?_⟩
        exact absurd h1 (by rw [(IH.2.2 hup).1]; simp)
      · -- spawn: launching to polling, procCount + 1
        have hc : s1.procCount = s.procCount := IH.2.1 (Or.inr rfl)
        refine ⟨by simp [hc], by simp, fun hup => ?_⟩
        exact absurd rfl (IH.2.2 hup).2.1
      · -- pollUp: polling to done true
        refine ⟨IH.1, by simp, fun hup => ?_⟩
        exact absurd rfl (IH.2.2 hup).2.2.1
      · -- pollTimeout: polling to done false
        refine ⟨IH.1, by simp, fun hup => ?_⟩
        exact absurd rfl (IH.2.2 hup).2.2.1
      · -- serviceComesUp: environment event, procCount unchanged
        exact ⟨IH.1, IH.2.1, fun hup => ⟨rfl, (IH.2.2 hup).2.1, (IH.2.2 hup).2.2.1,
          (IH.2.2 hup).2.2.2⟩⟩
  have hk := key (s', pc') h
  exact ⟨hk.1, fun hup => (hk.2.2 hup).2.2.2⟩

theorem ollama_single_spawn_witness :
    ((⟨false, 1⟩ : SupState)).procCount ≤ ((⟨false, 0⟩ : SupState)).procCount + 1 ∧
      ((⟨false, 0⟩ : SupState).serviceUp = true →
        ((⟨false, 1⟩ : SupState)).procCount = ((⟨false, 0⟩ : SupState)).procCount) :=
  ollama_single_spawn ⟨false, 0⟩ ⟨false, 1⟩ SupPC.polling
    (Relation.ReflTransGen.tail
      (Relation.ReflTransGen.single (supStep.probeDown _ rfl)) (supStep.spawn _))

end GuardianRedact